import Mathlib

/-!
A shallow embedding of the jbackup snapshot engine, translated from the Rust
sources (`tab_separated_key_value.rs`, `file_structure.rs`, `delta_list.rs`,
`transformer/minecraft_mca.rs`, `subcommand/snapshot.rs`,
`subcommand/__debug_restore.rs`), together with proofs about the embedded
operations.

Modeling conventions:
- Rust `String` values are modeled as `List Char` (for text handled
  character-wise, e.g. the TSKV codec) or as `List Nat` byte lists (for data
  handled byte-wise, e.g. tar entry paths and the delta-list wire format;
  a Rust `String` is exactly its UTF-8 byte vector).
- `HashMap` values are modeled as association lists in insertion order;
  `HashMap::insert` of a fresh key appends at the end.
- Fallible Rust code returning `Result<T, String>` is modeled with
  `Except String`.  A Rust `panic!` is modeled by a distinguished outcome
  where the distinction matters.
- The external binary-diff primitive (`xdelta3::encode` / `xdelta3::decode`)
  and the zlib primitives are opaque in the source; they are taken as
  function parameters here.
-/

set_option maxRecDepth 10000

/-- Rust `String` contents, character by character. -/
abbrev Str := List Char

/-- Byte-wise (or element-wise) lexicographic strict order, as used by Rust
`Ord` on `String`, `Vec<u8>` and `OsString`. -/
def lexLt {α : Type} [LT α] [∀ a b : α, Decidable (a < b)] : List α → List α → Bool
  | [], [] => false
  | [], _ :: _ => true
  | _ :: _, [] => false
  | a :: as, b :: bs => if a < b then true else if b < a then false else lexLt as bs

/-! ## TSKV codec (`src/tab_separated_key_value.rs`) -/

/-- `escape_string`: the first `replace` rewrites `\` to `\\`; the second
rewrites a newline to `\n`. -/
def replaceChar (c : Char) (r : Str) : Str → Str
  | [] => []
  | x :: xs => (if x = c then r else [x]) ++ replaceChar c r xs

def escape_string (s : Str) : Str :=
  replaceChar '\n' ['\\', 'n'] (replaceChar '\\' ['\\', '\\'] s)

/-- Per-character action of `escape_string` (used in proofs). -/
def escChar (c : Char) : Str :=
  if c = '\\' then ['\\', '\\'] else if c = '\n' then ['\\', 'n'] else [c]

/-- The state machine of `unescape_string`; the `Bool` is the `is_escaped`
flag of the Rust loop. -/
def unescape_aux : Bool → Str → Except String Str
  | false, [] => .ok []
  | true, [] => .error "Failed to unescape string: trailing backslash"
  | false, c :: cs =>
    if c = '\\' then unescape_aux true cs
    else
      match unescape_aux false cs with
      | .error e => .error e
      | .ok r => .ok (c :: r)
  | true, c :: cs =>
    if c = '\\' then
      match unescape_aux false cs with
      | .error e => .error e
      | .ok r => .ok ('\\' :: r)
    else if c = 'n' then
      match unescape_aux false cs with
      | .error e => .error e
      | .ok r => .ok ('\n' :: r)
    else .error "Failed to unescape string: invalid escape sequence"

def unescape_string (s : Str) : Except String Str := unescape_aux false s

/-- `line.find('\t')` followed by the split into `line[..i]` and
`line[i+1..]`. -/
def findTab : Str → Option (Str × Str)
  | [] => none
  | c :: cs =>
    if c = '\t' then some ([], cs)
    else
      match findTab cs with
      | none => none
      | some (a, b) => some (c :: a, b)

/-- `data.split('\n')`: `n` separators yield `n + 1` pieces. -/
def splitLines : Str → List Str
  | [] => [[]]
  | c :: cs =>
    if c = '\n' then [] :: splitLines cs
    else
      match splitLines cs with
      | [] => [[c]]
      | l :: ls => (c :: l) :: ls

structure Contents where
  single_value : List (Str × Str)
  multi_value : List (Str × List Str)
deriving DecidableEq

structure Config where
  multivalue_keys : List Str
deriving DecidableEq

/-- `multi_value.entry(key).or_insert(Vec::new()).push(val)`: append `v` to
the entry of `k`, or append a fresh entry at the end. -/
def multiInsert : List (Str × List Str) → Str → Str → List (Str × List Str)
  | [], k, v => [(k, [v])]
  | (k', vs) :: rest, k, v =>
    if k' = k then (k', vs ++ [v]) :: rest else (k', vs) :: multiInsert rest k v

/-- The body of the line loop of `Config::read_string`. -/
def Config.processLine (cfg : Config) (st : Contents) (line : Str) : Except String Contents :=
  if line = [] then .ok st
  else
    match findTab line with
    | none => .error "Corrupted"
    | some (kraw, vraw) =>
      match unescape_string kraw with
      | .error e => .error e
      | .ok key =>
        match unescape_string vraw with
        | .error e => .error e
        | .ok val =>
          if key ∈ cfg.multivalue_keys then
            .ok { st with multi_value := multiInsert st.multi_value key val }
          else if (st.single_value.lookup key).isSome then
            .error "Multiple values found for a key that is not defined as multivalued."
          else
            .ok { st with single_value := st.single_value ++ [(key, val)] }

def Config.read_lines (cfg : Config) : Contents → List Str → Except String Contents
  | st, [] => .ok st
  | st, l :: ls =>
    match cfg.processLine st l with
    | .error e => .error e
    | .ok st2 => cfg.read_lines st2 ls

def Config.read_string (cfg : Config) (data : Str) : Except String Contents :=
  cfg.read_lines { single_value := [], multi_value := [] } (splitLines data)

/-- Comparison used by the `sort()` calls of `write_string`; the sorted
vectors hold map entries, whose keys are distinct, so comparing keys is
enough. -/
def keyLeP {β : Type} (a b : Str × β) : Prop := lexLt a.1 b.1 = true ∨ a.1 = b.1

instance {β : Type} : DecidableRel (@keyLeP β) := fun a b => by
  unfold keyLeP; infer_instance

/-- One serialized line: escaped key, tab, escaped value (no newline). -/
def tskvLine (k v : Str) : Str := escape_string k ++ '\t' :: escape_string v

/-- The multi-value block of `write_string`, including the overlap check. -/
def writeMultis (single_value : List (Str × Str)) : List (Str × List Str) → Except String Str
  | [] => .ok []
  | (k, vs) :: rest =>
    if (single_value.lookup k).isSome then
      .error "Serialization failed: a key is specified as both multi-value and single-value"
    else
      match writeMultis single_value rest with
      | .error e => .error e
      | .ok r => .ok ((vs.map (fun v => tskvLine k v ++ ['\n'])).flatten ++ r)

def Contents.write_string (c : Contents) : Except String Str :=
  let singles_out :=
    ((c.single_value.insertionSort keyLeP).map (fun kv => tskvLine kv.1 kv.2 ++ ['\n'])).flatten
  match writeMultis c.single_value (c.multi_value.insertionSort keyLeP) with
  | .error e => .error e
  | .ok multis_out =>
    if singles_out ++ multis_out = [] then .ok ['\n'] else .ok (singles_out ++ multis_out)

/-- The unescaped key of a line, when the line parses that far. -/
def lineKey (line : Str) : Option Str :=
  match findTab line with
  | none => none
  | some (kraw, _) => (unescape_string kraw).toOption

/-! ## Snapshot metadata (`src/file_structure.rs`) -/

inductive SnapshotFullType where
  | None
  | Tar
  | TarGz
deriving DecidableEq

def SnapshotFullType.to_string : SnapshotFullType → Str
  | .None => []
  | .Tar => "tar".toList
  | .TarGz => "tar.gz".toList

def SnapshotFullType.from_str (s : Str) : Except String SnapshotFullType :=
  if s = [] then .ok .None
  else if s = "tar".toList then .ok .Tar
  else if s = "tar.gz".toList then .ok .TarGz
  else .error "Unrecognized snapshot full type"

structure SnapshotMetaFile where
  id : Str
  date : Int
  message : Option Str
  full_type : SnapshotFullType
  children : List Str
  parents : List Str
  diff_children : List Str
  diff_parents : List Str
deriving DecidableEq

/-- `SnapshotMetaFile::serialize`: the metadata as TSKV contents.  The
`full` key is present only when `full_type` is not `None`; the four
multi-value keys are always present (an empty list serializes to no
lines). -/
def SnapshotMetaFile.serialize (m : SnapshotMetaFile) : Except String Str :=
  Contents.write_string
    { single_value :=
        [("date".toList, (toString m.date).toList)] ++
        (match m.message with
         | some s => [("message".toList, s)]
         | none => []) ++
        (if m.full_type ≠ SnapshotFullType.None
         then [("full".toList, m.full_type.to_string)] else []),
      multi_value :=
        [("child".toList, m.children), ("parent".toList, m.parents),
         ("dchild".toList, m.diff_children), ("dparent".toList, m.diff_parents)] }

def SnapshotMetaFile.get_full_payload_filename (m : SnapshotMetaFile) : Except String Str :=
  match m.full_type with
  | .None => .error "A full snapshot payload is not included"
  | t => .ok (m.id ++ "-full.".toList ++ t.to_string)

def SnapshotMetaFile.get_diff_path_from_child_snapshot
    (m : SnapshotMetaFile) (snapshot_id : Str) : Str :=
  m.id ++ "-diff-".toList ++ snapshot_id

/-- The metadata assembled by `create_full_snapshot` in
`subcommand/snapshot.rs` (the timestamp and the md5 digest come from the
environment and are parameters here). -/
def create_full_snapshot_meta (timestamp : Int) (md5 : Str) : SnapshotMetaFile :=
  { id := (toString timestamp).toList ++ '-' :: md5
    date := timestamp
    message := none
    full_type := SnapshotFullType.Tar
    children := []
    parents := []
    diff_children := []
    diff_parents := [] }

/-! ## Delta engine (`src/delta_list.rs`) -/

/-- Tar entry paths and payloads are byte lists; `mode` and `mtime` stand for
the permission and timestamp bits of the tar header. -/
structure TarEntry where
  path : List Nat
  mode : Nat
  mtime : Nat
  data : List Nat
deriving DecidableEq

inductive JBackupDeltaContent where
  | Deleted
  | Modified (xdelta : List Nat)
  | Added (content : List Nat)
deriving DecidableEq

structure JBackupDelta where
  path : List Nat
  content : JBackupDeltaContent
deriving DecidableEq

/-- `add_tar_entry`: a fresh GNU header (zeroed mode and mtime) with only the
size set, plus the given content. -/
def add_tar_entry (path : List Nat) (content : List Nat) : TarEntry :=
  { path := path, mode := 0, mtime := 0, data := content }

/-- `generate_delta_list`, with the two archives as entry lists and
`xdelta3::encode` as an opaque parameter (`encode target source`). -/
def generate_delta_list (encode : List Nat → List Nat → Option (List Nat)) :
    List TarEntry → List TarEntry → List JBackupDelta
  | se :: ss, ee :: es =>
    if se.path = ee.path then
      match encode ee.data se.data with
      | some res => ⟨se.path, .Modified res⟩ :: generate_delta_list encode ss es
      | none => generate_delta_list encode ss es
    else if lexLt se.path ee.path then
      ⟨se.path, .Deleted⟩ :: generate_delta_list encode ss (ee :: es)
    else
      ⟨ee.path, .Added ee.data⟩ :: generate_delta_list encode (se :: ss) es
  | se :: ss, [] => ⟨se.path, .Deleted⟩ :: generate_delta_list encode ss []
  | [], ee :: es => ⟨ee.path, .Added ee.data⟩ :: generate_delta_list encode [] es
  | [], [] => []
termination_by a b => a.length + b.length
decreasing_by all_goals (simp; try omega)

/-- `restore_from_delta_list`, with `xdelta3::decode` as an opaque parameter
(`decode patch source`).  Pass-through entries keep their original header;
entries written through `add_tar_entry` get a fresh header. -/
def restore_from_delta_list (decode : List Nat → List Nat → Option (List Nat)) :
    List TarEntry → List JBackupDelta → Except String (List TarEntry)
  | se :: ss, de :: ds =>
    if se.path = de.path then
      match de.content with
      | .Modified xdelta =>
        match decode xdelta se.data with
        | some res =>
          (restore_from_delta_list decode ss ds).map (add_tar_entry se.path res :: ·)
        | none =>
          (restore_from_delta_list decode ss ds).map (add_tar_entry se.path se.data :: ·)
      | .Deleted => restore_from_delta_list decode ss ds
      | .Added _ =>
        .error "Patching conflict: Delta contains an Add operation on a path that already exists."
    else if lexLt se.path de.path then
      (restore_from_delta_list decode ss (de :: ds)).map (se :: ·)
    else
      match de.content with
      | .Added content =>
        (restore_from_delta_list decode (se :: ss) ds).map (add_tar_entry de.path content :: ·)
      | _ =>
        .error "Patching conflict: Cannot operate on a path since that file does not exist."
  | se :: ss, [] => (restore_from_delta_list decode ss []).map (se :: ·)
  | [], de :: ds =>
    match de.content with
    | .Added content =>
      (restore_from_delta_list decode [] ds).map (add_tar_entry de.path content :: ·)
    | _ =>
      .error "Patching conflict: Cannot operate on a path since that file does not exist."
  | [], [] => .ok []
termination_by a d => a.length + d.length
decreasing_by all_goals (simp; try omega)

/-- Payload-level view of an entry: its path and its bytes. -/
def entryPayload (e : TarEntry) : List Nat × List Nat := (e.path, e.data)

def pathsOf (l : List TarEntry) : List (List Nat) := l.map (·.path)

/-- Strict ascending path order of an archive. -/
def ArchiveSorted (l : List TarEntry) : Prop :=
  List.Pairwise (fun a b => lexLt a.path b.path = true) l

/-- An oracle that never produces a patch: it satisfies the
`decode (encode t s) s = t` contract vacuously. -/
def encodeNone : List Nat → List Nat → Option (List Nat) := fun _ _ => none

def decodeNone : List Nat → List Nat → Option (List Nat) := fun _ _ => none

/-- An oracle whose patch is the target itself. -/
def encodeId : List Nat → List Nat → Option (List Nat) := fun t _ => some t

def decodeId : List Nat → List Nat → Option (List Nat) := fun p _ => some p

/-! ## Delta-list wire format (`src/delta_list.rs`, reader and writer) -/

/-- `u64::to_be_bytes`. -/
def u64be (n : Nat) : List Nat :=
  [n / 72057594037927936 % 256, n / 281474976710656 % 256,
   n / 1099511627776 % 256, n / 4294967296 % 256,
   n / 16777216 % 256, n / 65536 % 256, n / 256 % 256, n % 256]

/-- `u64::from_be_bytes` over exactly eight bytes. -/
def beToNat (l : List Nat) : Nat := l.foldl (fun acc b => acc * 256 + b) 0

/-- `read_exact` over a byte stream: `n` bytes and the remaining stream, or
failure when the stream is too short. -/
def read_exact (n : Nat) (s : List Nat) : Option (List Nat × List Nat) :=
  if n ≤ s.length then some (s.take n, s.drop n) else none

/-- Validity of a byte sequence as UTF-8, as checked by
`String::from_utf8`. -/
def validUtf8 : List Nat → Bool
  | [] => true
  | b :: rest =>
    if b < 128 then validUtf8 rest
    else if 194 ≤ b ∧ b ≤ 223 then
      match rest with
      | b1 :: r => (128 ≤ b1 && b1 ≤ 191) && validUtf8 r
      | [] => false
    else if b = 224 then
      match rest with
      | b1 :: b2 :: r => (160 ≤ b1 && b1 ≤ 191) && (128 ≤ b2 && b2 ≤ 191) && validUtf8 r
      | _ => false
    else if (225 ≤ b ∧ b ≤ 236) ∨ b = 238 ∨ b = 239 then
      match rest with
      | b1 :: b2 :: r => (128 ≤ b1 && b1 ≤ 191) && (128 ≤ b2 && b2 ≤ 191) && validUtf8 r
      | _ => false
    else if b = 237 then
      match rest with
      | b1 :: b2 :: r => (128 ≤ b1 && b1 ≤ 159) && (128 ≤ b2 && b2 ≤ 191) && validUtf8 r
      | _ => false
    else if b = 240 then
      match rest with
      | b1 :: b2 :: b3 :: r =>
        (144 ≤ b1 && b1 ≤ 191) && (128 ≤ b2 && b2 ≤ 191) && (128 ≤ b3 && b3 ≤ 191) && validUtf8 r
      | _ => false
    else if 241 ≤ b ∧ b ≤ 243 then
      match rest with
      | b1 :: b2 :: b3 :: r =>
        (128 ≤ b1 && b1 ≤ 191) && (128 ≤ b2 && b2 ≤ 191) && (128 ≤ b3 && b3 ≤ 191) && validUtf8 r
      | _ => false
    else if b = 244 then
      match rest with
      | b1 :: b2 :: b3 :: r =>
        (128 ≤ b1 && b1 ≤ 143) && (128 ≤ b2 && b2 ≤ 191) && (128 ≤ b3 && b3 ≤ 191) && validUtf8 r
      | _ => false
    else false

/-- Outcome of `read_bytes` / `read_string` on the reader: success with the
remaining stream, a propagated-`Err` failure, or the `panic!` taken on a
length field above `1_000_000_000`. -/
inductive ReadBytesResult where
  | ok (bytes : List Nat) (rest : List Nat)
  | fail
  | panicked
deriving DecidableEq

def JBackupFileDeltaListReader.read_bytes (s : List Nat) : ReadBytesResult :=
  match read_exact 8 s with
  | none => .fail
  | some (lenb, r) =>
    let len := beToNat lenb
    if len > 1000000000 then .panicked
    else
      match read_exact len r with
      | none => .fail
      | some (b, r2) => .ok b r2

/-- `read_string`: `read_bytes` followed by `String::from_utf8`, which keeps
the same bytes and merely validates them. -/
def JBackupFileDeltaListReader.read_string (s : List Nat) : ReadBytesResult :=
  match JBackupFileDeltaListReader.read_bytes s with
  | .ok b r => if validUtf8 b then .ok b r else .fail
  | x => x

def JBackupFileDeltaListReader.read_u8 (s : List Nat) : Option (Nat × List Nat) :=
  match s with
  | [] => none
  | b :: r => some (b, r)

inductive NextResult where
  | record (d : JBackupDelta) (rest : List Nat)
  | endOfList
  | fail (e : String)
  | panicked
deriving DecidableEq

/-- `JBackupFileDeltaListReader::next`: a failure to read the path is
reported as a clean end of the list; later failures are errors. -/
def JBackupFileDeltaListReader.next (s : List Nat) : NextResult :=
  match JBackupFileDeltaListReader.read_string s with
  | .panicked => .panicked
  | .fail => .endOfList
  | .ok path r =>
    match JBackupFileDeltaListReader.read_u8 r with
    | none => .fail "IO Error: failed to fill whole buffer"
    | some (op, r2) =>
      if op = 1 then .record ⟨path, .Deleted⟩ r2
      else if op = 2 then
        match JBackupFileDeltaListReader.read_bytes r2 with
        | .ok x r3 => .record ⟨path, .Modified x⟩ r3
        | .fail => .fail "IO Error: failed to fill whole buffer"
        | .panicked => .panicked
      else if op = 3 then
        match JBackupFileDeltaListReader.read_bytes r2 with
        | .ok x r3 => .record ⟨path, .Added x⟩ r3
        | .fail => .fail "IO Error: failed to fill whole buffer"
        | .panicked => .panicked
      else .fail "Unexpected operation number"

/-- `JBackupFileDeltaListReader::new`: the six-byte magic and version
check. -/
def JBackupFileDeltaListReader.new (s : List Nat) : Except String (List Nat) :=
  if s.length < 6 then .error "File too short, cannot be a delta list."
  else if s.take 6 = [68, 76, 0, 0, 0, 1] then .ok (s.drop 6)
  else .error "Header magic number does not match. Input file is not a delta list."

inductive DecodeResult where
  | ok (ds : List JBackupDelta)
  | fail (e : String)
  | panicked
deriving DecidableEq

/-- Reading records until `next` reports the end.  The loop in the source is
driven by stream exhaustion; a successful `next` always consumes at least
nine bytes, so `s.length + 1` rounds of fuel never run out (proved in
`read_delta_records_fuel_irrelevant`). -/
def read_delta_records_fuel : Nat → List Nat → DecodeResult
  | 0, _ => .fail "out of fuel"
  | n + 1, s =>
    match JBackupFileDeltaListReader.next s with
    | .record d rest =>
      match read_delta_records_fuel n rest with
      | .ok ds => .ok (d :: ds)
      | x => x
    | .endOfList => .ok []
    | .fail e => .fail e
    | .panicked => .panicked

def read_delta_records (s : List Nat) : DecodeResult :=
  read_delta_records_fuel (s.length + 1) s

/-- Reading a whole delta-list byte stream (after gzip decoding). -/
def read_delta_list (s : List Nat) : DecodeResult :=
  match JBackupFileDeltaListReader.new s with
  | .error e => .fail e
  | .ok r => read_delta_records r

/-- `JBackupFileDeltaListWriter::add_bytes`: big-endian length, then the
bytes. -/
def JBackupFileDeltaListWriter.add_bytes (b : List Nat) : List Nat :=
  u64be b.length ++ b

/-- `JBackupFileDeltaListWriter::add`: the bytes of a single record. -/
def JBackupFileDeltaListWriter.add (d : JBackupDelta) : List Nat :=
  JBackupFileDeltaListWriter.add_bytes d.path ++
  match d.content with
  | .Deleted => [1]
  | .Modified x => 2 :: JBackupFileDeltaListWriter.add_bytes x
  | .Added c => 3 :: JBackupFileDeltaListWriter.add_bytes c

/-- The whole stream written by `JBackupFileDeltaListWriter`: magic `DL`,
version 1 as `u32` big-endian, then the records. -/
def delta_list_bytes (ds : List JBackupDelta) : List Nat :=
  [68, 76, 0, 0, 0, 1] ++ (ds.map JBackupFileDeltaListWriter.add).flatten

/-- Well-formedness of a record for the reader: the path is valid UTF-8 and
every length field fits under the reader's `1_000_000_000` panic guard. -/
def deltaWellFormed (d : JBackupDelta) : Prop :=
  validUtf8 d.path = true ∧ d.path.length ≤ 1000000000 ∧
  (match d.content with
   | .Deleted => True
   | .Modified x => x.length ≤ 1000000000
   | .Added c => c.length ≤ 1000000000)

/-- A tail that fails the path read: too short for the length field, or too
short for the path bytes it announces, or path bytes that are not valid
UTF-8 (with the announced length under the panic guard). -/
def truncatedPathTail (t : List Nat) : Prop :=
  t.length < 8 ∨
  (beToNat (t.take 8) ≤ 1000000000 ∧
    (t.length - 8 < beToNat (t.take 8) ∨
     (beToNat (t.take 8) ≤ t.length - 8 ∧
      validUtf8 ((t.drop 8).take (beToNat (t.take 8))) = false)))

/-! ## Region-file transformer (`src/transformer/minecraft_mca.rs`) -/

structure ChunkDescriptor where
  offset : Nat
  sector_count : Nat
  timestamp : Nat
deriving DecidableEq

def ChunkDescriptor.is_exists (d : ChunkDescriptor) : Bool :=
  decide (d.offset ≠ 0) && decide (d.sector_count ≠ 0)

structure RegionFileFormatReader where
  contents : List Nat
deriving DecidableEq

/-- Byte access into the region file; the accesses made on a region file
accepted by the reader are in bounds, where `getD` agrees with Rust's
indexing. -/
def byteAt (s : List Nat) (i : Nat) : Nat := s.getD i 0

def RegionFileFormatReader.get_chunk_i (r : RegionFileFormatReader) (i : Nat) : ChunkDescriptor :=
  { offset := byteAt r.contents (i * 4) * 65536 + byteAt r.contents (i * 4 + 1) * 256 +
      byteAt r.contents (i * 4 + 2)
    sector_count := byteAt r.contents (i * 4 + 3)
    timestamp := byteAt r.contents (4096 + i * 4) * 16777216 +
      byteAt r.contents (4096 + i * 4 + 1) * 65536 +
      byteAt r.contents (4096 + i * 4 + 2) * 256 + byteAt r.contents (4096 + i * 4 + 3) }

/-- `read_chunk_uncompressed`, with the zlib decoder (`inflate`) opaque.
The four-byte length is an `i32`; `length <= 0` means a zero value or a set
sign bit. -/
def RegionFileFormatReader.read_chunk_uncompressed
    (inflate : List Nat → Except String (List Nat))
    (r : RegionFileFormatReader) (descriptor : ChunkDescriptor) :
    Except String (List Nat) :=
  if !descriptor.is_exists then
    .error "Descriptor does not point to an existing chunk"
  else
    let offset_bytes := descriptor.offset * 4096
    let length := byteAt r.contents offset_bytes * 16777216 +
      byteAt r.contents (offset_bytes + 1) * 65536 +
      byteAt r.contents (offset_bytes + 2) * 256 + byteAt r.contents (offset_bytes + 3)
    if length = 0 ∨ 2147483648 ≤ length then .error "Length must be a positive number"
    else if length > descriptor.sector_count * 4096 then
      .error "Chunk length is larger than the sector count"
    else
      let data := (r.contents.drop (offset_bytes + 5)).take (length - 1)
      match byteAt r.contents (offset_bytes + 4) with
      | 2 => inflate data
      | 3 => .ok data
      | _ => .error "Unsupported compression algorithm"

structure RegionFileFormatWriter where
  next_chunk_i_must_be_ge : Nat
  chunks : List ChunkDescriptor
  next_sector_i : Nat
  payload : List Nat
deriving DecidableEq

def RegionFileFormatWriter.new : RegionFileFormatWriter :=
  { next_chunk_i_must_be_ge := 0
    chunks := List.replicate 1024 ⟨0, 0, 0⟩
    next_sector_i := 2
    payload := [] }

/-- `u32`/`i32` big-endian bytes of `n % 2^32`. -/
def u32be (n : Nat) : List Nat :=
  [n / 16777216 % 256, n / 65536 % 256, n / 256 % 256, n % 256]

/-- `RegionFileFormatWriter::add_chunk`.  The `panic!` on an out-of-order
chunk index is modeled as the error branch.  The guard compares against
`next_chunk_i_must_be_ge`, which no code path ever advances. -/
def RegionFileFormatWriter.add_chunk (w : RegionFileFormatWriter) (chunk_i : Nat)
    (timestamp : Nat) (compression_scheme : Nat) (payload : List Nat) :
    Except String RegionFileFormatWriter :=
  if chunk_i < w.next_chunk_i_must_be_ge then
    .error "RegionFileFormatWriter only accepts chunks in left-to-right, then up-down order."
  else
    let total_chunk_payload_size := payload.length + 5
    let sector_count := (total_chunk_payload_size + 4095) / 4096
    let record_bytes := u32be ((payload.length + 1) % 4294967296) ++
      compression_scheme % 256 :: payload
    let new_payload_len := w.payload.length + sector_count * 4096
    .ok { next_chunk_i_must_be_ge := w.next_chunk_i_must_be_ge
          chunks := w.chunks.set chunk_i
            ⟨w.next_sector_i % 4294967296, sector_count % 256, timestamp⟩
          next_sector_i := w.next_sector_i + sector_count
          payload := w.payload ++ record_bytes ++
            List.replicate (new_payload_len - (w.payload.length + record_bytes.length)) 0 }

/-- The chunk-location header of `RegionFileFormatWriter::serialize`. -/
def serializeLocations : List ChunkDescriptor → Except String (List Nat)
  | [] => .ok []
  | c :: rest =>
    if c.offset > 16777215 then .error "Chunk offset is too large."
    else
      match serializeLocations rest with
      | .error e => .error e
      | .ok r =>
        .ok ([c.offset / 65536 % 256, c.offset / 256 % 256, c.offset % 256,
              c.sector_count % 256] ++ r)

def RegionFileFormatWriter.serialize (w : RegionFileFormatWriter) : Except String (List Nat) :=
  match serializeLocations w.chunks with
  | .error e => .error e
  | .ok locations =>
    .ok (locations ++ (w.chunks.map (fun c => u32be c.timestamp)).flatten ++ w.payload)

/-- The body of the `for i in 0..CHUNKS_IN_REGION` loop of
`transform_region_file_to_compressed`, over the remaining loop indices: the
chunk is read (and the reader rejects a nonexistent descriptor) before the
`is_exists` test. -/
def compress_chunks (deflate : List Nat → List Nat)
    (inflate : List Nat → Except String (List Nat)) (reader : RegionFileFormatReader) :
    List Nat → RegionFileFormatWriter → Except String RegionFileFormatWriter
  | [], w => .ok w
  | i :: is, w =>
    let desc := reader.get_chunk_i i
    match reader.read_chunk_uncompressed inflate desc with
    | .error e => .error e
    | .ok payload =>
      let compressed_payload := deflate payload
      if desc.is_exists then
        match w.add_chunk i desc.timestamp 2 compressed_payload with
        | .error e => .error e
        | .ok w2 => compress_chunks deflate inflate reader is w2
      else compress_chunks deflate inflate reader is w

/-- `transform_region_file_to_compressed`, with zlib compression (`deflate`)
and decompression (`inflate`) opaque. -/
def transform_region_file_to_compressed (deflate : List Nat → List Nat)
    (inflate : List Nat → Except String (List Nat)) (reader : RegionFileFormatReader) :
    Except String (List Nat) :=
  match compress_chunks deflate inflate reader (List.range 1024) RegionFileFormatWriter.new with
  | .error e => .error e
  | .ok w => w.serialize

/-- A deflate stand-in for concrete evaluations. -/
def idDeflate : List Nat → List Nat := fun b => b

/-- An inflate stand-in for concrete evaluations. -/
def idInflate : List Nat → Except String (List Nat) := fun b => .ok b

/-- A region file whose 8192-byte header marks every chunk nonexistent. -/
def emptyRegionFile : List Nat := List.replicate 8192 0

/-! ## File-tree walker (`src/subcommand/snapshot.rs`, `_walk_file_tree`) -/

/-- A directory: its regular files and its subdirectories. -/
inductive FsDir where
  | mk (files : List Str) (subdirs : List (Str × FsDir))

/-- `sort()` order for directory entry names. -/
def nameLe (a b : Str) : Prop := lexLt a b = true ∨ a = b

instance : DecidableRel nameLe := fun a b => by
  unfold nameLe; infer_instance

def entryNameLe (a b : Str × FsDir) : Prop := nameLe a.1 b.1

instance : DecidableRel entryNameLe := fun a b => by
  unfold entryNameLe; infer_instance

/-- The filter applied while collecting subdirectories: at depth 0 a
directory named `.jbackup` is skipped. -/
def walkKeep (depth : Nat) (p : Str × FsDir) : Bool :=
  decide (depth ≠ 0) || decide (p.1 ≠ ".jbackup".toList)

/-- `_walk_file_tree`: files of the directory in sorted name order first,
then recursion into the subdirectories in sorted name order. -/
def _walk_file_tree (dir_path : Str) (depth : Nat) : FsDir → List Str
  | .mk files subdirs =>
    (files.insertionSort nameLe).map (fun n => dir_path ++ '/' :: n) ++
    ((((subdirs.filter (walkKeep depth)).insertionSort entryNameLe).attach.map
      (fun p => _walk_file_tree (dir_path ++ '/' :: p.1.1) (depth + 1) p.1.2))).flatten
termination_by d => sizeOf d
decreasing_by
  have h1 : p.1 ∈ (subdirs.filter (walkKeep depth)).insertionSort entryNameLe := p.2
  have h2 : p.1 ∈ subdirs.filter (walkKeep depth) :=
    (List.perm_insertionSort entryNameLe _).mem_iff.mp h1
  have h3 : p.1 ∈ subdirs := (List.mem_filter.mp h2).1
  have h4 := List.sizeOf_lt_of_mem h3
  have h5 : sizeOf p.1.2 < sizeOf p.1 := by
    cases hp : p.1 with
    | mk a b => simp [hp]; try omega
  simp only [FsDir.mk.sizeOf_spec]
  omega

def walk_file_tree (dir_path : Str) (d : FsDir) : List Str :=
  _walk_file_tree dir_path 0 d

/-- A working tree holding the regular file `b` and the directory `a`
containing the regular file `x`. -/
def fsExampleTree : FsDir :=
  FsDir.mk ["b".toList] [("a".toList, FsDir.mk ["x".toList] [])]

/-! ## Restore (`src/subcommand/__debug_restore.rs`) -/

/-- `snapshots.remove(x)` on the id-keyed map: the removed metadata (if any)
and the remaining collection. -/
def extract_snapshot : List SnapshotMetaFile → Str → Option SnapshotMetaFile × List SnapshotMetaFile
  | [], _ => (none, [])
  | m :: rest, i =>
    if m.id = i then (some m, rest)
    else ((extract_snapshot rest i).1, m :: (extract_snapshot rest i).2)

/-- The path-search loop of restore `main`: follow the first `diff_children`
edge (removing visited snapshots from the map) until a snapshot with a full
payload is reached or the chain breaks. Returns the visited path and whether
a full snapshot was found. -/
def find_restore_path :
    List SnapshotMetaFile → Option SnapshotMetaFile → List SnapshotMetaFile →
    List SnapshotMetaFile × Bool
  | _, none, path => (path, false)
  | snaps, some s, path =>
    match s.diff_children.head? with
    | none =>
      if s.full_type ≠ SnapshotFullType.None then (path ++ [s], true)
      else find_restore_path snaps none (path ++ [s])
    | some cid =>
      if s.full_type ≠ SnapshotFullType.None then (path ++ [s], true)
      else
        find_restore_path (extract_snapshot snaps cid).2 (extract_snapshot snaps cid).1
          (path ++ [s])
termination_by snaps curr _ =>
  snaps.length + (if curr.isSome then 1 else 0)
decreasing_by
  · simp only [Option.isSome]
    simp only [Bool.false_eq_true, if_false, if_true]
    omega
  · have h : (extract_snapshot snaps cid).2.length +
        (if (extract_snapshot snaps cid).1.isSome then 1 else 0) ≤ snaps.length := by
      induction snaps with
      | nil => simp [extract_snapshot]
      | cons m rest ih =>
        simp only [extract_snapshot]
        by_cases hm : m.id = cid
        · simp [hm]
        · by_cases h1 : (extract_snapshot rest cid).1.isSome <;>
            simp [hm, h1] at ih ⊢ <;> omega
    by_cases h1 : (extract_snapshot snaps cid).1.isSome <;> simp [h1] at h ⊢ <;> omega

inductive RestoreOutcome where
  | restoredTo (path : List SnapshotMetaFile)
  | pathNotFound (message : Str)
deriving DecidableEq

/-- Restore `main` up to the point where it either hands the found path to
`follow_path` or prints the not-found message; in both cases the function
returns `Ok`, so the process exits with code 0. -/
def restore_main (snapshot_id : Str) (snapshots : List SnapshotMetaFile) :
    Except String RestoreOutcome :=
  if snapshots.isEmpty then .error "There are no snapshots in this repository."
  else
    let er := extract_snapshot snapshots snapshot_id
    match find_restore_path er.2 er.1 [] with
    | (path, true) => .ok (.restoredTo path.reverse)
    | (_, false) => .ok (.pathNotFound ("Path not found to ".toList ++ snapshot_id))

/-- A snapshot reachable from the requested id by following first
`diff_children` edges through the snapshot collection: the snapshot whose
id is the requested one, and, from any reachable snapshot, any snapshot
whose id is the head of its `diff_children` list. -/
inductive reaches (snapshots : List SnapshotMetaFile) (i : Str) : SnapshotMetaFile → Prop where
  | start (m : SnapshotMetaFile) (hm : m ∈ snapshots) (hid : m.id = i) :
      reaches snapshots i m
  | step (m m2 : SnapshotMetaFile) (cid : Str) (h : reaches snapshots i m)
      (hh : m.diff_children.head? = some cid) (hm : m2 ∈ snapshots) (hid : m2.id = cid) :
      reaches snapshots i m2

/-- An example repository for restore: snapshot `a` has no full payload and
no diff children, snapshot `c` holds a full payload but is not reachable
from `a`. -/
def restoreSnapA : SnapshotMetaFile :=
  { id := ['a'], date := 0, message := none, full_type := SnapshotFullType.None,
    children := [], parents := [], diff_children := [], diff_parents := [] }

def restoreSnapC : SnapshotMetaFile :=
  { id := ['c'], date := 0, message := none, full_type := SnapshotFullType.Tar,
    children := [], parents := [], diff_children := [], diff_parents := [] }

/-! ## Snapshot operation (`src/subcommand/snapshot.rs`, `main`) -/

structure HeadFile where
  curr_snapshot_id : Option Str
  curr_branch : Str
deriving DecidableEq

/-- The repository state touched by the snapshot operation: the head file,
the branches file, the meta files keyed by snapshot id, and the payload and
delta files present under `snapshots/`. -/
structure Repo where
  head : HeadFile
  branches : List (Str × Str)
  metas : List (Str × SnapshotMetaFile)
  payloads : List Str
  deltas : List Str
deriving DecidableEq

/-- `HashMap::insert`: replace in place, or append a fresh key. -/
def insertAssoc {β : Type} : List (Str × β) → Str → β → List (Str × β)
  | [], k, v => [(k, v)]
  | (k', v') :: rest, k, v =>
    if k' = k then (k, v) :: rest else (k', v') :: insertAssoc rest k v

/-- `subcommand/snapshot.rs` `main`, over the repository state.
`xdelta_ok` tells whether the external `xdelta` command succeeds; on failure
`create_xdelta` merely warns, so no delta file appears but the operation
continues.  The timestamp and digest of `create_full_snapshot` are
parameters. -/
def snapshot_main (xdelta_ok : Bool) (timestamp : Int) (md5 : Str)
    (message : Option Str) (repo : Repo) : Except String Repo :=
  let staged0 := create_full_snapshot_meta timestamp md5
  match staged0.get_full_payload_filename with
  | .error e => .error e
  | .ok staged_payload_name =>
    -- commit_tmp_snapshot refuses to overwrite an existing payload file
    if staged_payload_name ∈ repo.payloads then
      .error "Tried to commit snapshot, but the file already exists"
    else
      let repo1 := { repo with payloads := repo.payloads ++ [staged_payload_name] }
      if (repo1.metas.lookup staged0.id).isSome then
        .error "A snapshot with the same id already exists."
      else
        let staged := { staged0 with message := message }
        match repo1.head.curr_snapshot_id with
        | none =>
          let repo2 := { repo1 with metas := insertAssoc repo1.metas staged.id staged }
          .ok { repo2 with
                head := { curr_snapshot_id := some staged.id
                          curr_branch := repo2.head.curr_branch }
                branches := insertAssoc repo2.branches repo2.head.curr_branch staged.id }
        | some curr_id =>
          match repo1.metas.lookup curr_id with
          | none => .error "IO Error: failed to read the current snapshot metadata"
          | some curr0 =>
            if curr0.full_type ≠ SnapshotFullType.Tar then
              .error "todo: Not implemented: Current snapshot is not a tar snapshot type"
            else if staged.full_type ≠ SnapshotFullType.Tar then
              .error "todo: Not implemented: Staged snapshot is not a tar snapshot type"
            else
              let curr1 := { curr0 with children := curr0.children ++ [staged.id] }
              let staged1 := { staged with parents := staged.parents ++ [curr_id] }
              match curr1.get_full_payload_filename with
              | .error e => .error e
              | .ok curr_payload_name =>
                -- create_xdelta: the output file exists only when the
                -- external command succeeded; failure is only warned about
                let repo2 :=
                  if xdelta_ok then
                    { repo1 with deltas := repo1.deltas ++
                        [curr1.get_diff_path_from_child_snapshot staged1.id] }
                  else repo1
                let curr2 := { curr1 with
                               diff_children := curr1.diff_children ++ [staged1.id] }
                let staged2 := { staged1 with
                                 diff_parents := staged1.diff_parents ++ [curr_id] }
                let curr3 := { curr2 with full_type := SnapshotFullType.None }
                let repo3 := { repo2 with
                               metas := insertAssoc
                                 (insertAssoc repo2.metas staged2.id staged2)
                                 curr3.id curr3 }
                .ok { repo3 with
                      head := { curr_snapshot_id := some staged2.id
                                curr_branch := repo3.head.curr_branch }
                      branches := insertAssoc repo3.branches repo3.head.curr_branch
                        staged2.id
                      payloads := repo3.payloads.erase curr_payload_name }

/-! # Verification -/

/-! ## Order helpers -/

theorem lexLt_irrefl_of {α : Type} [LT α] [∀ a b : α, Decidable (a < b)]
    (hirr : ∀ x : α, ¬x < x) (a : List α) : lexLt a a = false := by
  induction a with
  | nil => rfl
  | cons x xs ih => simp [lexLt, hirr x, ih]

theorem lexLt_ne_of {α : Type} [LT α] [∀ a b : α, Decidable (a < b)]
    (hirr : ∀ x : α, ¬x < x) {a b : List α} (h : lexLt a b = true) : a ≠ b := by
  intro he
  subst he
  rw [lexLt_irrefl_of hirr] at h
  exact Bool.false_ne_true h

theorem lexLt_ne {a b : Str} (h : lexLt a b = true) : a ≠ b :=
  lexLt_ne_of (fun x => lt_irrefl x) h

theorem lexLt_ne_nat {a b : List Nat} (h : lexLt a b = true) : a ≠ b :=
  lexLt_ne_of (fun x => Nat.lt_irrefl x) h

/-! ## C3: the full type recorded for a first snapshot -/

/-- C3: the claim states that a first snapshot writes its meta with
`full_type = TarGz`, i.e. a `full` field reading `tar.gz`.  The code
(`create_full_snapshot` in `subcommand/snapshot.rs`) assembles the staged
snapshot with `SnapshotFullType::Tar`, so the meta file of the first
snapshot carries `full` = `tar` — even though the payload it commits is the
gzip-compressed `tmp_snapshot.tar.gz`, and the restore path demands
`TarGz`.  Evaluated here at a concrete timestamp, digest and message. -/
theorem c3_first_snapshot_meta_records_tar :
    (create_full_snapshot_meta 100 "d41d8".toList).full_type = SnapshotFullType.Tar ∧
    SnapshotMetaFile.serialize
      { create_full_snapshot_meta 100 "d41d8".toList with message := some "first".toList } =
      .ok "date\t100\nfull\ttar\nmessage\tfirst\n".toList ∧
    SnapshotFullType.to_string SnapshotFullType.Tar = "tar".toList ∧
    SnapshotFullType.to_string SnapshotFullType.TarGz = "tar.gz".toList :=
  ⟨rfl, rfl, rfl, rfl⟩

/-! ## C4: walker emission order -/

/-- C4: the claim states the walker emits file paths in strictly ascending
byte order.  On a tree holding the file `b` and the directory `a` with the
file `a/x`, the walker (which visits the files of a directory before any
subdirectory) emits `./b` before `./a/x`, although `./a/x` is byte-wise
smaller — so the output is not ascending. -/
theorem c4_walker_not_byte_ascending :
    walk_file_tree ".".toList fsExampleTree = ["./b".toList, "./a/x".toList] ∧
    lexLt "./a/x".toList "./b".toList = true := by
  constructor
  · simp [walk_file_tree, _walk_file_tree, fsExampleTree, walkKeep,
      List.insertionSort, List.orderedInsert]
  · decide

/-! ## C5: the out-of-order guard of the region writer -/

/-- C5: the claim states `add_chunk` errors when a chunk index is smaller
than an earlier one.  The guard compares against
`next_chunk_i_must_be_ge`, which `add_chunk` never advances, so adding
chunk 5 and then chunk 3 succeeds, and the field still reads 0 after an
add. -/
theorem c5_out_of_order_chunk_accepted :
    ((RegionFileFormatWriter.new.add_chunk 5 7 2 []).bind
      (fun w => w.add_chunk 3 8 2 [])).isOk = true ∧
    (RegionFileFormatWriter.new.add_chunk 5 7 2 []).map
      RegionFileFormatWriter.next_chunk_i_must_be_ge = .ok 0 :=
  ⟨rfl, rfl⟩

/-! ## C6: recompression in the presence of nonexistent chunks -/

/-- C6: the claim states the recompression direction skips nonexistent
chunks and cannot hit its error branch on a valid region file.  The loop in
`transform_region_file_to_compressed` reads each chunk before testing
`is_exists`, and `read_chunk_uncompressed` rejects a nonexistent
descriptor, so a region file marking any chunk nonexistent — here a valid
8192-byte header with no chunks at all — fails the whole transform. -/
theorem c6_nonexistent_chunk_breaks_recompression :
    transform_region_file_to_compressed idDeflate idInflate ⟨emptyRegionFile⟩ =
      .error "Descriptor does not point to an existing chunk" ∧
    (RegionFileFormatReader.get_chunk_i ⟨emptyRegionFile⟩ 0).is_exists = false :=
  ⟨rfl, rfl⟩

/-! ## C7: restore with no reachable full snapshot -/

theorem extract_snapshot_fst_mem {l : List SnapshotMetaFile} {i : Str} {m : SnapshotMetaFile}
    (h : (extract_snapshot l i).1 = some m) : m ∈ l := by
  induction l with
  | nil => simp [extract_snapshot] at h
  | cons x rest ih =>
    simp only [extract_snapshot] at h
    by_cases hx : x.id = i
    · simp [hx] at h
      simp [h]
    · simp [hx] at h
      exact List.mem_cons_of_mem x (ih h)

theorem extract_snapshot_snd_subset {l : List SnapshotMetaFile} {i : Str} {x : SnapshotMetaFile}
    (h : x ∈ (extract_snapshot l i).2) : x ∈ l := by
  induction l with
  | nil => simp [extract_snapshot] at h
  | cons y rest ih =>
    simp only [extract_snapshot] at h
    by_cases hy : y.id = i
    · simp [hy] at h
      simp [h]
    · simp [hy] at h
      rcases h with h | h
      · simp [h]
      · exact List.mem_cons_of_mem y (ih h)

theorem extract_snapshot_fst_id {l : List SnapshotMetaFile} {i : Str} {m : SnapshotMetaFile}
    (h : (extract_snapshot l i).1 = some m) : m.id = i := by
  induction l with
  | nil => simp [extract_snapshot] at h
  | cons x rest ih =>
    simp only [extract_snapshot] at h
    by_cases hx : x.id = i
    · simp only [hx, if_true] at h
      injection h with h
      rw [← h]
      exact hx
    · simp only [hx, if_false] at h
      exact ih h

/-- When no snapshot reachable from the requested id carries a full
payload, the path search never reports success.  The search state is
tracked by the invariants that the remaining map holds only snapshots of
the repository and that the current snapshot, if any, is reachable. -/
theorem find_restore_path_unreachable (snapshots : List SnapshotMetaFile) (i : Str)
    (hreach : ∀ m, reaches snapshots i m → m.full_type = SnapshotFullType.None)
    (snaps : List SnapshotMetaFile) (curr : Option SnapshotMetaFile)
    (path : List SnapshotMetaFile) :
    (∀ m ∈ snaps, m ∈ snapshots) →
    (∀ m, curr = some m → reaches snapshots i m) →
    (find_restore_path snaps curr path).2 = false := by
  induction snaps, curr, path using find_restore_path.induct with
  | case1 x path =>
    intro _ _
    simp [find_restore_path]
  | case2 snaps s path hh hf =>
    intro _ h2
    exact absurd (hreach s (h2 s rfl)) hf
  | case3 snaps s path hh hf ih =>
    intro h1 h2
    rw [find_restore_path]
    simp only [hh, hf, if_false]
    exact ih h1 (fun m hm => by cases hm)
  | case4 snaps s path cid hh hf =>
    intro _ h2
    exact absurd (hreach s (h2 s rfl)) hf
  | case5 snaps s path cid hh hf ih =>
    intro h1 h2
    rw [find_restore_path]
    simp only [hh, hf, if_false]
    refine ih (fun m hm => h1 m (extract_snapshot_snd_subset hm)) ?_
    intro m hm
    exact reaches.step s m cid (h2 s rfl) hh (h1 m (extract_snapshot_fst_mem hm))
      (extract_snapshot_fst_id hm)

/-- C7 (amended): when no snapshot with a full payload is reachable from
the requested id by following first `diff_children` edges, restore performs
no restoration and reports the not-found message, but the operation itself
returns `Ok` — the message is printed, not returned as an error, and the
process exits successfully. -/
theorem c7_path_not_found_reported_ok (snapshot_id : Str)
    (snapshots : List SnapshotMetaFile) (hne : snapshots ≠ [])
    (hreach : ∀ m, reaches snapshots snapshot_id m →
      m.full_type = SnapshotFullType.None) :
    restore_main snapshot_id snapshots =
      .ok (.pathNotFound ("Path not found to ".toList ++ snapshot_id)) := by
  rw [restore_main]
  simp only [List.isEmpty_iff, hne, if_false]
  have h := find_restore_path_unreachable snapshots snapshot_id hreach
    (extract_snapshot snapshots snapshot_id).2
    (extract_snapshot snapshots snapshot_id).1 []
    (fun m hm => extract_snapshot_snd_subset hm)
    (fun m hm => reaches.start m (extract_snapshot_fst_mem hm) (extract_snapshot_fst_id hm))
  rcases hp : find_restore_path (extract_snapshot snapshots snapshot_id).2
    (extract_snapshot snapshots snapshot_id).1 [] with ⟨p, found⟩
  rw [hp] at h
  simp at h
  subst h
  rfl

/-- C7 witness: the amended theorem applied to a two-snapshot repository in
which the requested snapshot `a` has no full payload and no diff children,
while the full snapshot `c` exists but is not reachable from `a`. -/
theorem c7_path_not_found_witness :
    restore_main ['a'] [restoreSnapA, restoreSnapC] =
      .ok (.pathNotFound ("Path not found to ".toList ++ ['a'])) :=
  c7_path_not_found_reported_ok ['a'] [restoreSnapA, restoreSnapC] (by simp) (by
    intro m h
    have key : ∀ m2, reaches [restoreSnapA, restoreSnapC] ['a'] m2 → m2 = restoreSnapA := by
      intro m2 h2
      induction h2 with
      | start n1 hm hid =>
        rcases List.mem_cons.mp hm with hcase | hcase
        · exact hcase
        · simp only [List.mem_singleton] at hcase
          subst hcase
          exact absurd hid (by decide)
      | step n1 n2 cid hr hh hm hid ih =>
        rw [ih] at hh
        simp [restoreSnapA] at hh
    rw [key m h]
    rfl)

/-- C7 counterexample: the claim as stated says restore fails (returns an
error / a non-zero outcome) with the not-found message.  On a repository
whose single snapshot has no full payload, `restore_main` returns `Ok`
carrying the printed message: the outcome is success, not an error. -/
theorem c7_claim_counterexample :
    (restore_main ['b']
      [{ id := ['b'], date := 0, message := none, full_type := SnapshotFullType.None,
         children := [], parents := [], diff_children := [], diff_parents := [] }]).isOk = true ∧
    restore_main ['b']
      [{ id := ['b'], date := 0, message := none, full_type := SnapshotFullType.None,
         children := [], parents := [], diff_children := [], diff_parents := [] }] =
      .ok (.pathNotFound ("Path not found to ".toList ++ ['b'])) := by
  constructor
  · simp [restore_main, extract_snapshot, find_restore_path, Except.isOk, Except.toBool]
  · simp [restore_main, extract_snapshot, find_restore_path]

/-! ## C8 and C10: the snapshot operation -/

theorem lookup_insertAssoc_self {β : Type} (l : List (Str × β)) (k : Str) (v : β) :
    (insertAssoc l k v).lookup k = some v := by
  induction l with
  | nil => simp [insertAssoc, List.lookup]
  | cons p rest ih =>
    rcases p with ⟨k', v'⟩
    by_cases hp : k' = k
    · simp [insertAssoc, hp, List.lookup]
    · simp only [insertAssoc, hp, if_false, List.lookup, ih]
      rw [show (k == k') = false from beq_eq_false_iff_ne.mpr (Ne.symm hp)]

theorem lookup_insertAssoc_ne {β : Type} (l : List (Str × β)) (k k' : Str) (v : β)
    (hne : k' ≠ k) : (insertAssoc l k v).lookup k' = l.lookup k' := by
  induction l with
  | nil => simp [insertAssoc, List.lookup, beq_eq_false_iff_ne.mpr hne]
  | cons p rest ih =>
    rcases p with ⟨k0, v0⟩
    by_cases hp : k0 = k
    · subst hp
      simp [insertAssoc, List.lookup, beq_eq_false_iff_ne.mpr hne]
    · simp [insertAssoc, hp, List.lookup, ih]

theorem create_meta_full_type (t : Int) (m : Str) :
    (create_full_snapshot_meta t m).full_type = SnapshotFullType.Tar := rfl

theorem create_meta_payload_filename (t : Int) (m : Str) :
    (create_full_snapshot_meta t m).get_full_payload_filename =
      .ok ((create_full_snapshot_meta t m).id ++ "-full.".toList ++ "tar".toList) := rfl

/-- C8: after every successful snapshot operation, the branches mapping at
the current branch and the head file's snapshot id both equal the id of the
snapshot just created — both update paths of `main` end by setting
`head.snapshotid` and `branches[head.branch]` to the new id. -/
theorem c8_branches_match_head (xdelta_ok : Bool) (timestamp : Int) (md5 : Str)
    (message : Option Str) (repo repo' : Repo)
    (h : snapshot_main xdelta_ok timestamp md5 message repo = .ok repo') :
    repo'.branches.lookup repo'.head.curr_branch = repo'.head.curr_snapshot_id ∧
    repo'.head.curr_snapshot_id = some (create_full_snapshot_meta timestamp md5).id := by
  simp only [snapshot_main] at h
  split at h
  · cases h
  · split at h
    · cases h
    · split at h
      · cases h
      · split at h
        · injection h with h
          subst h
          simp [lookup_insertAssoc_self]
        · split at h
          · cases h
          · split at h
            · cases h
            · split at h
              · cases h
              · split at h
                · cases h
                · injection h with h
                  subst h
                  simp [lookup_insertAssoc_self]

/-- C8 witness: a snapshot taken in a fresh repository. -/
theorem c8_branches_match_head_witness :
    ∃ repo', snapshot_main true 100 "ab".toList none
        ⟨⟨none, "main".toList⟩, [], [], [], []⟩ = .ok repo' ∧
      repo'.branches.lookup repo'.head.curr_branch = repo'.head.curr_snapshot_id ∧
      repo'.head.curr_snapshot_id = some (create_full_snapshot_meta 100 "ab".toList).id := by
  refine ⟨_, rfl, ?_⟩
  exact c8_branches_match_head true 100 "ab".toList none
    ⟨⟨none, "main".toList⟩, [], [], [], []⟩ _ rfl

/-- C10: during an incremental snapshot a failing external diff command is
swallowed — `create_xdelta` only warns, so the operation still succeeds,
rewrites both meta files, marks the previous snapshot `full_type = None`,
and deletes the previous full payload, leaving no delta file on disk. -/
theorem c10_xdelta_failure_swallowed (timestamp : Int) (md5 : Str) (message : Option Str)
    (repo : Repo) (curr_id : Str) (curr : SnapshotMetaFile)
    (hhead : repo.head.curr_snapshot_id = some curr_id)
    (hcurr : repo.metas.lookup curr_id = some curr)
    (hid : curr.id = curr_id)
    (hft : curr.full_type = SnapshotFullType.Tar)
    (hfresh : repo.metas.lookup (create_full_snapshot_meta timestamp md5).id = none)
    (hpay : (create_full_snapshot_meta timestamp md5).id ++ "-full.".toList ++ "tar".toList ∉
      repo.payloads)
    (hnodup : repo.payloads.Nodup)
    (hdelta : curr.id ++ "-diff-".toList ++ (create_full_snapshot_meta timestamp md5).id ∉
      repo.deltas) :
    ∃ repo', snapshot_main false timestamp md5 message repo = .ok repo' ∧
      (repo'.metas.lookup curr_id).map SnapshotMetaFile.full_type =
        some SnapshotFullType.None ∧
      (repo'.metas.lookup (create_full_snapshot_meta timestamp md5).id).isSome = true ∧
      curr.id ++ "-full.".toList ++ "tar".toList ∉ repo'.payloads ∧
      repo'.deltas = repo.deltas ∧
      curr.id ++ "-diff-".toList ++ (create_full_snapshot_meta timestamp md5).id ∉
        repo'.deltas := by
  have hne : (create_full_snapshot_meta timestamp md5).id ≠ curr_id := by
    intro heq
    rw [heq, hcurr] at hfresh
    cases hfresh
  simp only [snapshot_main, create_meta_payload_filename, hpay, if_false,
    create_meta_full_type, hhead, hcurr, hfresh, Option.isSome_none,
    SnapshotMetaFile.get_full_payload_filename, hft, hid, Bool.false_eq_true,
    ne_eq, not_true_eq_false, if_true, if_false, Bool.if_false_left,
    SnapshotFullType.to_string]
  refine ⟨_, rfl, ?_, ?_, ?_, ?_, ?_⟩
  · rw [lookup_insertAssoc_self]
    rfl
  · rw [lookup_insertAssoc_ne _ _ _ _ hne, lookup_insertAssoc_self]
    rfl
  · have hnd : (repo.payloads ++
        [(create_full_snapshot_meta timestamp md5).id ++ "-full.".toList ++
          "tar".toList]).Nodup := by
      refine hnodup.append (List.nodup_singleton _) ?_
      intro x hx hmem
      rw [List.mem_singleton] at hmem
      exact hpay (hmem ▸ hx)
    exact hnd.not_mem_erase
  · rfl
  · show curr_id ++ "-diff-".toList ++ (create_full_snapshot_meta timestamp md5).id ∉
      repo.deltas
    rw [hid] at hdelta
    exact hdelta

/-- C10 witness: a second snapshot over a one-snapshot repository, with the
external diff command failing. -/
theorem c10_xdelta_failure_swallowed_witness :
    ∃ repo', snapshot_main false 100 "ab".toList none
        ⟨⟨some ['c'], "main".toList⟩, [("main".toList, ['c'])],
         [(['c'], { id := ['c'], date := 0, message := none,
                    full_type := SnapshotFullType.Tar, children := [], parents := [],
                    diff_children := [], diff_parents := [] })],
         [['c'] ++ "-full.".toList ++ "tar".toList], []⟩ = .ok repo' ∧
      (repo'.metas.lookup ['c']).map SnapshotMetaFile.full_type =
        some SnapshotFullType.None ∧
      (repo'.metas.lookup (create_full_snapshot_meta 100 "ab".toList).id).isSome = true ∧
      ['c'] ++ "-full.".toList ++ "tar".toList ∉ repo'.payloads ∧
      repo'.deltas = ([] : List Str) ∧
      ['c'] ++ "-diff-".toList ++ (create_full_snapshot_meta 100 "ab".toList).id ∉
        repo'.deltas :=
  c10_xdelta_failure_swallowed 100 "ab".toList none
    ⟨⟨some ['c'], "main".toList⟩, [("main".toList, ['c'])],
     [(['c'], { id := ['c'], date := 0, message := none,
                full_type := SnapshotFullType.Tar, children := [], parents := [],
                diff_children := [], diff_parents := [] })],
     [['c'] ++ "-full.".toList ++ "tar".toList], []⟩ ['c']
    { id := ['c'], date := 0, message := none,
      full_type := SnapshotFullType.Tar, children := [], parents := [],
      diff_children := [], diff_parents := [] }
    rfl (by decide) rfl rfl (by decide) (by decide) (by decide) (by decide)

/-! ## C2 helper lemmas -/

theorem replaceChar_append (c : Char) (r : Str) (a b : Str) :
    replaceChar c r (a ++ b) = replaceChar c r a ++ replaceChar c r b := by
  induction a with
  | nil => rfl
  | cons x xs ih => simp [replaceChar, ih]

theorem escape_nil : escape_string [] = [] := rfl

theorem escape_cons (c : Char) (s : Str) :
    escape_string (c :: s) = escChar c ++ escape_string s := by
  by_cases hb : c = '\\'
  · subst hb
    simp [escape_string, replaceChar, escChar, replaceChar_append]
  · by_cases hn : c = '\n'
    · subst hn
      simp [escape_string, replaceChar, escChar, replaceChar_append]
    · simp [escape_string, replaceChar, escChar, hb, hn, replaceChar_append]

theorem newline_not_mem_escChar (c : Char) : '\n' ∉ escChar c := by
  by_cases hb : c = '\\'
  · simp [escChar, hb]
  · by_cases hn : c = '\n'
    · simp [escChar, hb, hn]
    · simp [escChar, hb, hn]
      exact fun he => hn he.symm

theorem newline_not_mem_escape (s : Str) : '\n' ∉ escape_string s := by
  induction s with
  | nil => simp [escape_nil]
  | cons c cs ih =>
    rw [escape_cons]
    simp only [List.mem_append]
    rintro (h | h)
    · exact newline_not_mem_escChar c h
    · exact ih h

theorem tab_not_mem_escChar {c : Char} (h : c ≠ '\t') : '\t' ∉ escChar c := by
  by_cases hb : c = '\\'
  · simp [escChar, hb]
  · by_cases hn : c = '\n'
    · simp [escChar, hb, hn]
    · simp [escChar, hb, hn]
      exact fun he => h he.symm

theorem tab_not_mem_escape {s : Str} (h : '\t' ∉ s) : '\t' ∉ escape_string s := by
  induction s with
  | nil => simp [escape_nil]
  | cons c cs ih =>
    rw [escape_cons]
    simp only [List.mem_append]
    rintro (hc | hc)
    · exact tab_not_mem_escChar (fun he => h (he ▸ List.mem_cons_self c cs)) hc
    · exact ih (fun hm => h (List.mem_cons_of_mem c hm)) hc

theorem unescape_escape (s : Str) : unescape_string (escape_string s) = .ok s := by
  rw [unescape_string]
  induction s with
  | nil => rfl
  | cons c cs ih =>
    rw [escape_cons]
    by_cases hb : c = '\\'
    · subst hb
      simp [escChar, unescape_aux, ih]
    · by_cases hn : c = '\n'
      · subst hn
        simp [escChar, unescape_aux, ih]
      · simp [escChar, hb, hn, unescape_aux, ih]

theorem findTab_split {a : Str} (b : Str) (h : '\t' ∉ a) :
    findTab (a ++ '\t' :: b) = some (a, b) := by
  induction a with
  | nil => simp [findTab]
  | cons c cs ih =>
    have hc : c ≠ '\t' := fun he => h (he ▸ List.mem_cons_self c cs)
    simp only [List.cons_append, findTab, hc, if_false, List.append_eq]
    rw [ih (fun hm => h (List.mem_cons_of_mem c hm))]

theorem splitLines_line {a : Str} (b : Str) (h : '\n' ∉ a) :
    splitLines (a ++ '\n' :: b) = a :: splitLines b := by
  induction a with
  | nil => simp [splitLines]
  | cons c cs ih =>
    have hc : c ≠ '\n' := fun he => h (he ▸ List.mem_cons_self c cs)
    simp only [List.cons_append, splitLines, hc, if_false, List.append_eq]
    rw [ih (fun hm => h (List.mem_cons_of_mem c hm))]

theorem splitLines_flatten (ls : List Str) (h : ∀ l ∈ ls, '\n' ∉ l) :
    splitLines ((ls.map (· ++ ['\n'])).flatten) = ls ++ [[]] := by
  induction ls with
  | nil => rfl
  | cons l rest ih =>
    simp only [List.map_cons, List.flatten_cons, List.append_assoc, List.singleton_append]
    rw [splitLines_line _ (h l (List.mem_cons_self l rest))]
    rw [ih (fun x hx => h x (List.mem_cons_of_mem l hx))]
    rfl

theorem lookup_none_of_not_mem_keys {β : Type} {l : List (Str × β)} {k : Str}
    (h : k ∉ l.map Prod.fst) : l.lookup k = none := by
  induction l with
  | nil => rfl
  | cons p rest ih =>
    rcases p with ⟨k0, v0⟩
    simp only [List.map_cons, List.mem_cons] at h
    push_neg at h
    simp only [List.lookup, beq_eq_false_iff_ne.mpr h.1]
    exact ih h.2

theorem mem_keys_of_lookup_isSome {β : Type} {l : List (Str × β)} {k : Str}
    (h : (l.lookup k).isSome = true) : k ∈ l.map Prod.fst := by
  induction l with
  | nil => simp [List.lookup] at h
  | cons p rest ih =>
    rcases p with ⟨k0, v0⟩
    by_cases hk : k = k0
    · subst hk
      exact List.mem_cons_self _ _
    · simp only [List.lookup, beq_eq_false_iff_ne.mpr hk] at h
      exact List.mem_cons_of_mem _ (ih h)

theorem lookup_append_none {β : Type} {l1 : List (Str × β)} (l2 : List (Str × β)) {k : Str}
    (h : l1.lookup k = none) : (l1 ++ l2).lookup k = l2.lookup k := by
  induction l1 with
  | nil => rfl
  | cons p rest ih =>
    rcases p with ⟨k0, v0⟩
    simp only [List.lookup] at h ⊢
    cases hbeq : (k == k0) with
    | true => simp [hbeq] at h
    | false =>
      rw [hbeq] at h
      simp only [List.cons_append, List.lookup, hbeq]
      exact ih h

theorem lookup_append_some {β : Type} {l1 : List (Str × β)} (l2 : List (Str × β)) {k : Str}
    {v : β} (h : l1.lookup k = some v) : (l1 ++ l2).lookup k = some v := by
  induction l1 with
  | nil => simp [List.lookup] at h
  | cons p rest ih =>
    rcases p with ⟨k0, v0⟩
    simp only [List.lookup] at h ⊢
    cases hbeq : (k == k0) with
    | true =>
      rw [hbeq] at h
      simpa [hbeq] using h
    | false =>
      rw [hbeq] at h
      simp only [List.cons_append, List.lookup, hbeq]
      exact ih h

theorem read_lines_append (cfg : Config) (st : Contents) (a b : List Str) :
    cfg.read_lines st (a ++ b) =
      match cfg.read_lines st a with
      | .error e => .error e
      | .ok st2 => cfg.read_lines st2 b := by
  induction a generalizing st with
  | nil => simp [Config.read_lines]
  | cons l ls ih =>
    simp only [List.cons_append, Config.read_lines]
    cases cfg.processLine st l with
    | error e => rfl
    | ok st2 => exact ih st2

theorem tskvLine_ne_nil (k v : Str) : tskvLine k v ≠ [] := by
  unfold tskvLine
  cases h : escape_string k with
  | nil => simp
  | cons c cs => simp

theorem newline_not_mem_tskvLine (k v : Str) : '\n' ∉ tskvLine k v := by
  unfold tskvLine
  simp only [List.mem_append, List.mem_cons]
  rintro (h | h | h)
  · exact newline_not_mem_escape k h
  · cases h
  · exact newline_not_mem_escape v h

/-- Processing one serialized line parses back the original key and value
and dispatches on the multi-value configuration. -/
theorem processLine_tskvLine (cfg : Config) (st : Contents) (k v : Str) (htab : '\t' ∉ k) :
    cfg.processLine st (tskvLine k v) =
      if k ∈ cfg.multivalue_keys then
        .ok { st with multi_value := multiInsert st.multi_value k v }
      else if (st.single_value.lookup k).isSome then
        .error "Multiple values found for a key that is not defined as multivalued."
      else
        .ok { st with single_value := st.single_value ++ [(k, v)] } := by
  unfold Config.processLine
  rw [if_neg (tskvLine_ne_nil k v)]
  unfold tskvLine
  rw [findTab_split (escape_string v) (tab_not_mem_escape htab)]
  simp only [unescape_escape]

/-- The singles block reads back verbatim, appended to the accumulated
single-value map. -/
theorem read_lines_singles (cfg : Config) (S : List (Str × Str)) :
    ∀ (P : List (Str × Str)) (M : List (Str × List Str)),
    (∀ kv ∈ S, '\t' ∉ kv.1 ∧ kv.1 ∉ cfg.multivalue_keys) →
    (S.map Prod.fst).Nodup →
    (∀ kv ∈ S, P.lookup kv.1 = none) →
    cfg.read_lines ⟨P, M⟩ (S.map (fun kv => tskvLine kv.1 kv.2)) = .ok ⟨P ++ S, M⟩ := by
  induction S with
  | nil =>
    intro P M _ _ _
    simp [Config.read_lines]
  | cons kv rest ih =>
    intro P M hprops hnodup hfresh
    rcases kv with ⟨k, v⟩
    have hk := hprops ⟨k, v⟩ (List.mem_cons_self _ _)
    simp only [List.map_cons, Config.read_lines]
    rw [processLine_tskvLine cfg _ k v hk.1]
    rw [if_neg hk.2]
    rw [hfresh ⟨k, v⟩ (List.mem_cons_self _ _)]
    simp only [Option.isSome_none, Bool.false_eq_true, if_false]
    rw [ih (P ++ [(k, v)]) M
      (fun x hx => hprops x (List.mem_cons_of_mem _ hx))
      (by simpa using hnodup.of_cons)
      ?_]
    · simp
    · intro x hx
      have h1 : P.lookup x.1 = none := hfresh x (List.mem_cons_of_mem _ hx)
      have hne : x.1 ≠ k := by
        intro he
        simp only [List.map_cons, List.nodup_cons] at hnodup
        exact hnodup.1 (he ▸ List.mem_map_of_mem Prod.fst hx)
      rw [lookup_append_none _ h1]
      simp [List.lookup, beq_eq_false_iff_ne.mpr hne]

theorem multiInsert_fresh (M : List (Str × List Str)) (k : Str) (v : Str)
    (h : M.lookup k = none) : multiInsert M k v = M ++ [(k, [v])] := by
  induction M with
  | nil => rfl
  | cons p rest ih =>
    rcases p with ⟨k0, vs0⟩
    simp only [List.lookup] at h
    cases hbeq : (k == k0) with
    | true => simp [hbeq] at h
    | false =>
      rw [hbeq] at h
      have hne : k0 ≠ k := fun he => by simp [he] at hbeq
      simp only [multiInsert, hne, if_false, List.cons_append]
      rw [ih h]

theorem multiInsert_last (M : List (Str × List Str)) (k : Str) (acc : List Str) (v : Str)
    (h : M.lookup k = none) :
    multiInsert (M ++ [(k, acc)]) k v = M ++ [(k, acc ++ [v])] := by
  induction M with
  | nil => simp [multiInsert]
  | cons p rest ih =>
    rcases p with ⟨k0, vs0⟩
    simp only [List.lookup] at h
    cases hbeq : (k == k0) with
    | true => simp [hbeq] at h
    | false =>
      rw [hbeq] at h
      have hne : k0 ≠ k := fun he => by simp [he] at hbeq
      simp only [List.cons_append, multiInsert, hne, if_false, List.append_eq]
      rw [ih h]

/-- Reading further value lines of a key appends the values to the entry at
the end of the multi-value map. -/
theorem read_lines_multi_vals (cfg : Config) (k : Str) (hk : k ∈ cfg.multivalue_keys)
    (htab : '\t' ∉ k) (vs : List Str) :
    ∀ (P : List (Str × Str)) (M : List (Str × List Str)) (acc : List Str),
    M.lookup k = none →
    cfg.read_lines ⟨P, M ++ [(k, acc)]⟩ (vs.map (fun v => tskvLine k v)) =
      .ok ⟨P, M ++ [(k, acc ++ vs)]⟩ := by
  induction vs with
  | nil =>
    intro P M acc _
    simp [Config.read_lines]
  | cons v vt ih =>
    intro P M acc hnone
    simp only [List.map_cons, Config.read_lines]
    rw [processLine_tskvLine cfg _ k v htab, if_pos hk]
    simp only
    rw [show multiInsert (M ++ [(k, acc)]) k v = M ++ [(k, acc ++ [v])] from
      multiInsert_last M k acc v hnone]
    rw [ih P M (acc ++ [v]) hnone]
    simp

/-- Reading all value lines of a fresh key creates its entry at the end of
the multi-value map. -/
theorem read_lines_multi_key (cfg : Config) (k : Str) (hk : k ∈ cfg.multivalue_keys)
    (htab : '\t' ∉ k) (vs : List Str) (hvs : vs ≠ [])
    (P : List (Str × Str)) (M : List (Str × List Str)) (hnone : M.lookup k = none) :
    cfg.read_lines ⟨P, M⟩ (vs.map (fun v => tskvLine k v)) = .ok ⟨P, M ++ [(k, vs)]⟩ := by
  cases vs with
  | nil => exact absurd rfl hvs
  | cons v vt =>
    simp only [List.map_cons, Config.read_lines]
    rw [processLine_tskvLine cfg _ k v htab, if_pos hk]
    simp only
    rw [multiInsert_fresh M k v hnone]
    rw [read_lines_multi_vals cfg k hk htab vt P M [v] hnone]
    simp

/-- The whole multi-value block reads back verbatim. -/
theorem read_lines_multis (cfg : Config) (Ml : List (Str × List Str)) :
    ∀ (P : List (Str × Str)) (M0 : List (Str × List Str)),
    (∀ kv ∈ Ml, kv.1 ∈ cfg.multivalue_keys ∧ '\t' ∉ kv.1 ∧ kv.2 ≠ []) →
    (Ml.map Prod.fst).Nodup →
    (∀ kv ∈ Ml, M0.lookup kv.1 = none) →
    cfg.read_lines ⟨P, M0⟩
        ((Ml.map (fun kv => kv.2.map (fun v => tskvLine kv.1 v))).flatten) =
      .ok ⟨P, M0 ++ Ml⟩ := by
  induction Ml with
  | nil =>
    intro P M0 _ _ _
    simp [Config.read_lines]
  | cons kv rest ih =>
    intro P M0 hprops hnodup hfresh
    rcases kv with ⟨k, vs⟩
    have hk := hprops ⟨k, vs⟩ (List.mem_cons_self _ _)
    simp only [List.map_cons, List.flatten_cons]
    rw [read_lines_append]
    rw [read_lines_multi_key cfg k hk.1 hk.2.1 vs hk.2.2 P M0
      (hfresh ⟨k, vs⟩ (List.mem_cons_self _ _))]
    have hstep := ih P (M0 ++ [(k, vs)])
      (fun x hx => hprops x (List.mem_cons_of_mem _ hx))
      (by simpa using hnodup.of_cons)
      (by
        intro x hx
        have h1 : M0.lookup x.1 = none := hfresh x (List.mem_cons_of_mem _ hx)
        have hne : x.1 ≠ k := by
          intro he
          simp only [List.map_cons, List.nodup_cons] at hnodup
          exact hnodup.1 (he ▸ List.mem_map_of_mem Prod.fst hx)
        rw [lookup_append_none _ h1]
        simp [List.lookup, beq_eq_false_iff_ne.mpr hne])
    simp only [hstep]
    simp

/-- With disjoint key sets, the multi-value block serializes without
error. -/
theorem writeMultis_ok (single : List (Str × Str)) (Ml : List (Str × List Str))
    (h : ∀ kv ∈ Ml, single.lookup kv.1 = none) :
    writeMultis single Ml =
      .ok ((Ml.map (fun kv => (kv.2.map (fun v => tskvLine kv.1 v ++ ['\n'])).flatten)).flatten) := by
  induction Ml with
  | nil => rfl
  | cons kv rest ih =>
    rcases kv with ⟨k, vs⟩
    simp only [writeMultis, h ⟨k, vs⟩ (List.mem_cons_self _ _), Option.isSome_none,
      Bool.false_eq_true, if_false]
    rw [ih (fun x hx => h x (List.mem_cons_of_mem _ hx))]
    simp

/-- A strictly key-sorted entry list is untouched by the sort of
`write_string`. -/
theorem insertionSort_of_key_sorted {β : Type} (l : List (Str × β))
    (h : List.Pairwise (fun a b => lexLt a.1 b.1 = true) l) :
    l.insertionSort keyLeP = l :=
  List.Sorted.insertionSort_eq (h.imp (fun hab => Or.inl hab))

theorem keys_nodup_of_key_sorted {β : Type} (l : List (Str × β))
    (h : List.Pairwise (fun a b => lexLt a.1 b.1 = true) l) :
    (l.map Prod.fst).Nodup :=
  List.pairwise_map.mpr (h.imp (fun hab => lexLt_ne hab))

theorem flatten_multi_eq (M : List (Str × List Str)) :
    (M.map (fun kv => (kv.2.map (fun v => tskvLine kv.1 v ++ ['\n'])).flatten)).flatten =
      (((M.map (fun kv => kv.2.map (fun v => tskvLine kv.1 v))).flatten).map
        (· ++ ['\n'])).flatten := by
  induction M with
  | nil => rfl
  | cons kv rest ih =>
    simp only [List.map_cons, List.flatten_cons, List.map_append, List.flatten_append, ih,
      List.map_map]
    rfl

theorem map_line_newline (S : List (Str × Str)) :
    S.map (fun kv => tskvLine kv.1 kv.2 ++ ['\n']) =
      (S.map (fun kv => tskvLine kv.1 kv.2)).map (· ++ ['\n']) := by
  induction S with
  | nil => rfl
  | cons a l ih => simp only [List.map_cons, ih]

theorem tskv_round_trip (C : Contents)
    (hs : List.Pairwise (fun a b => lexLt a.1 b.1 = true) C.single_value)
    (hm : List.Pairwise (fun a b => lexLt a.1 b.1 = true) C.multi_value)
    (hdisj : ∀ kv ∈ C.single_value, kv.1 ∉ C.multi_value.map Prod.fst)
    (htab1 : ∀ kv ∈ C.single_value, '\t' ∉ kv.1)
    (htab2 : ∀ kv ∈ C.multi_value, '\t' ∉ kv.1)
    (hnonempty : ∀ kv ∈ C.multi_value, kv.2 ≠ []) :
    ∃ s, C.write_string = .ok s ∧
      Config.read_string ⟨C.multi_value.map Prod.fst⟩ s = .ok C := by
  obtain ⟨S, M⟩ := C
  simp only at hs hm hdisj htab1 htab2 hnonempty
  have hdisj' : ∀ kv ∈ M, S.lookup kv.1 = none := by
    intro kv hkv
    cases hl : S.lookup kv.1 with
    | none => rfl
    | some v =>
      exfalso
      have hmem := mem_keys_of_lookup_isSome (by rw [hl]; rfl)
      rcases List.mem_map.mp hmem with ⟨skv, hskv, hfst⟩
      exact hdisj skv hskv (hfst ▸ List.mem_map_of_mem Prod.fst hkv)
  simp only [Contents.write_string, insertionSort_of_key_sorted _ hs,
    insertionSort_of_key_sorted _ hm, writeMultis_ok _ _ hdisj']
  by_cases hempty :
      ((S.map (fun kv => tskvLine kv.1 kv.2 ++ ['\n'])).flatten ++
        (M.map (fun kv => (kv.2.map (fun v => tskvLine kv.1 v ++ ['\n'])).flatten)).flatten) =
      []
  · -- Both blocks empty: the file degenerates to a single newline.
    rcases List.append_eq_nil.mp hempty with ⟨h1, h2⟩
    have hS : S = [] := by
      cases S with
      | nil => rfl
      | cons kv rest => simp [tskvLine_ne_nil] at h1
    have hM : M = [] := by
      cases M with
      | nil => rfl
      | cons kv rest =>
        exfalso
        rcases hvs : kv.2 with _ | ⟨v, vt⟩
        · exact hnonempty kv (List.mem_cons_self _ _) hvs
        · simp [hvs] at h2
    subst hS
    subst hM
    refine ⟨['\n'], by simp, ?_⟩
    rfl
  · -- Nonempty output: every written line reads back.
    refine ⟨_, by rw [if_neg hempty], ?_⟩
    have hsingles_shape := map_line_newline S
    have hno : ∀ l ∈ (S.map (fun kv => tskvLine kv.1 kv.2)) ++
        ((M.map (fun kv => kv.2.map (fun v => tskvLine kv.1 v))).flatten), '\n' ∉ l := by
      intro l hl
      rcases List.mem_append.mp hl with hl | hl
      · rcases List.mem_map.mp hl with ⟨kv, _, hkv⟩
        exact hkv ▸ newline_not_mem_tskvLine kv.1 kv.2
      · rcases List.mem_flatten.mp hl with ⟨sub, hsub, hlsub⟩
        rcases List.mem_map.mp hsub with ⟨kv, _, hkv⟩
        rcases List.mem_map.mp (hkv ▸ hlsub) with ⟨v, _, hv⟩
        exact hv ▸ newline_not_mem_tskvLine kv.1 v
    have hsplit : splitLines
        ((S.map (fun kv => tskvLine kv.1 kv.2 ++ ['\n'])).flatten ++
          (M.map (fun kv => (kv.2.map (fun v => tskvLine kv.1 v ++ ['\n'])).flatten)).flatten) =
        ((S.map (fun kv => tskvLine kv.1 kv.2)) ++
          ((M.map (fun kv => kv.2.map (fun v => tskvLine kv.1 v))).flatten)) ++ [[]] := by
      rw [hsingles_shape, flatten_multi_eq, ← List.flatten_append, ← List.map_append]
      exact splitLines_flatten _ hno
    simp only [Config.read_string, hsplit]
    rw [List.append_assoc, read_lines_append]
    rw [read_lines_singles ⟨M.map Prod.fst⟩ S [] []
      (fun kv hkv => ⟨htab1 kv hkv, hdisj kv hkv⟩)
      (keys_nodup_of_key_sorted S hs)
      (fun kv _ => rfl)]
    simp only [List.nil_append]
    rw [read_lines_append]
    rw [read_lines_multis ⟨M.map Prod.fst⟩ M S []
      (fun kv hkv => ⟨List.mem_map_of_mem Prod.fst hkv, htab2 kv hkv, hnonempty kv hkv⟩)
      (keys_nodup_of_key_sorted M hm)
      (fun kv _ => rfl)]
    simp only [List.nil_append]
    rfl

theorem lineKey_elim {l k : Str} (h : lineKey l = some k) :
    ∃ kraw vraw, findTab l = some (kraw, vraw) ∧ unescape_string kraw = .ok k := by
  unfold lineKey at h
  cases hf : findTab l with
  | none => rw [hf] at h; cases h
  | some p =>
    rcases p with ⟨kraw, vraw⟩
    simp only [hf] at h
    refine ⟨kraw, vraw, rfl, ?_⟩
    cases hu : unescape_string kraw with
    | error e => simp [hu, Except.toOption] at h
    | ok x =>
      simp only [hu, Except.toOption, Option.some.injEq] at h
      rw [h]

theorem processLine_single_key_recorded {cfg : Config} {st st2 : Contents} {l k : Str}
    (hl : lineKey l = some k) (hk : k ∉ cfg.multivalue_keys)
    (h : cfg.processLine st l = .ok st2) :
    (st2.single_value.lookup k).isSome = true := by
  rcases lineKey_elim hl with ⟨kraw, vraw, hf, hu⟩
  have hnl : l ≠ [] := by
    intro he
    rw [he] at hf
    cases hf
  unfold Config.processLine at h
  rw [if_neg hnl] at h
  simp only [hf, hu] at h
  cases hv : unescape_string vraw with
  | error e => simp [hv] at h
  | ok val =>
    simp only [hv, if_neg hk] at h
    cases hlk : (st.single_value.lookup k).isSome with
    | true => rw [hlk] at h; simp at h
    | false =>
      rw [hlk] at h
      simp only [Bool.false_eq_true, if_false, Except.ok.injEq] at h
      subst h
      simp only
      rw [lookup_append_none _ (by
        cases hx : st.single_value.lookup k with
        | none => rfl
        | some v => rw [hx] at hlk; cases hlk)]
      simp [List.lookup]

theorem processLine_preserves_single {cfg : Config} {st st2 : Contents} {l k : Str}
    (h : cfg.processLine st l = .ok st2)
    (hk : (st.single_value.lookup k).isSome = true) :
    (st2.single_value.lookup k).isSome = true := by
  unfold Config.processLine at h
  by_cases hnl : l = []
  · rw [if_pos hnl] at h
    cases h
    exact hk
  · rw [if_neg hnl] at h
    cases hf : findTab l with
    | none => rw [hf] at h; cases h
    | some p =>
      rcases p with ⟨kraw, vraw⟩
      simp only [hf] at h
      cases hu : unescape_string kraw with
      | error e => simp [hu] at h
      | ok key =>
        simp only [hu] at h
        cases hv : unescape_string vraw with
        | error e => simp [hv] at h
        | ok val =>
          simp only [hv] at h
          by_cases hkm : key ∈ cfg.multivalue_keys
          · rw [if_pos hkm] at h
            cases h
            exact hk
          · rw [if_neg hkm] at h
            cases hlk : (st.single_value.lookup key).isSome with
            | true => rw [hlk] at h; simp at h
            | false =>
              rw [hlk] at h
              simp only [Bool.false_eq_true, if_false, Except.ok.injEq] at h
              subst h
              simp only
              rcases Option.isSome_iff_exists.mp hk with ⟨v, hv2⟩
              rw [lookup_append_some _ hv2]
              rfl

theorem read_lines_preserves_single {cfg : Config} {ls : List Str} :
    ∀ {st st2 : Contents} {k : Str},
    cfg.read_lines st ls = .ok st2 →
    (st.single_value.lookup k).isSome = true →
    (st2.single_value.lookup k).isSome = true := by
  induction ls with
  | nil =>
    intro st st2 k h hk
    cases h
    exact hk
  | cons l rest ih =>
    intro st st2 k h hk
    simp only [Config.read_lines] at h
    cases hp : cfg.processLine st l with
    | error e => rw [hp] at h; cases h
    | ok stm =>
      rw [hp] at h
      exact ih h (processLine_preserves_single hp hk)

theorem processLine_dup_errors {cfg : Config} {st : Contents} {l k : Str}
    (hl : lineKey l = some k) (hk : k ∉ cfg.multivalue_keys)
    (hs : (st.single_value.lookup k).isSome = true) :
    ∀ st2, cfg.processLine st l ≠ .ok st2 := by
  intro st2 h
  rcases lineKey_elim hl with ⟨kraw, vraw, hf, hu⟩
  have hnl : l ≠ [] := by
    intro he
    rw [he] at hf
    cases hf
  unfold Config.processLine at h
  rw [if_neg hnl] at h
  simp only [hf, hu] at h
  cases hv : unescape_string vraw with
  | error e => simp [hv] at h
  | ok val =>
    simp only [hv, if_neg hk, hs] at h
    simp at h

/-- Reading an input that carries the same non-multivalued key on two lines
always fails. -/
theorem tskv_dup_single_fails (cfg : Config) (data : Str) (L1 L2 L3 : List Str)
    (li lj k : Str) (hsplit : splitLines data = L1 ++ li :: L2 ++ lj :: L3)
    (hki : lineKey li = some k) (hkj : lineKey lj = some k)
    (hk : k ∉ cfg.multivalue_keys) (c : Contents) :
    cfg.read_string data ≠ .ok c := by
  intro hok
  rw [Config.read_string, hsplit, List.append_assoc, List.cons_append,
    read_lines_append] at hok
  cases h1 : cfg.read_lines ⟨[], []⟩ L1 with
  | error e => rw [h1] at hok; cases hok
  | ok st1 =>
    simp only [h1, Config.read_lines] at hok
    cases h2 : cfg.processLine st1 li with
    | error e => rw [h2] at hok; cases hok
    | ok st2 =>
      simp only [h2, read_lines_append] at hok
      cases h3 : cfg.read_lines st2 L2 with
      | error e => rw [h3] at hok; cases hok
      | ok st3 =>
        simp only [h3, Config.read_lines] at hok
        cases h4 : cfg.processLine st3 lj with
        | error e => rw [h4] at hok; cases hok
        | ok st4 =>
          exact processLine_dup_errors hkj hk
            (read_lines_preserves_single h3 (processLine_single_key_recorded hki hk h2))
            st4 h4

/-- C2 (amended): for every canonical `Contents` value (strictly key-sorted
association lists standing for the hash maps) whose single- and multi-value
key sets are disjoint, whose keys contain no tab, and in which every
multi-value key carries at least one value, writing and re-reading under a
configuration whose multivalue keys are exactly the multi-value keys
returns the value unchanged; and reading any input carrying the same
non-multivalued key on two lines fails.  The "at least one value" condition
is the amendment forced by `c2_claim_counterexample`. -/
theorem c2_tskv_round_trip_and_dup_fail :
    (∀ C : Contents,
      List.Pairwise (fun a b => lexLt a.1 b.1 = true) C.single_value →
      List.Pairwise (fun a b => lexLt a.1 b.1 = true) C.multi_value →
      (∀ kv ∈ C.single_value, kv.1 ∉ C.multi_value.map Prod.fst) →
      (∀ kv ∈ C.single_value, '\t' ∉ kv.1) →
      (∀ kv ∈ C.multi_value, '\t' ∉ kv.1) →
      (∀ kv ∈ C.multi_value, kv.2 ≠ []) →
      ∃ s, C.write_string = .ok s ∧
        Config.read_string ⟨C.multi_value.map Prod.fst⟩ s = .ok C) ∧
    (∀ (cfg : Config) (data : Str) (L1 L2 L3 : List Str) (li lj k : Str),
      splitLines data = L1 ++ li :: L2 ++ lj :: L3 →
      lineKey li = some k → lineKey lj = some k → k ∉ cfg.multivalue_keys →
      ∀ c : Contents, cfg.read_string data ≠ .ok c) :=
  ⟨fun C hs hm hdisj h1 h2 h3 => tskv_round_trip C hs hm hdisj h1 h2 h3,
   fun cfg data L1 L2 L3 li lj k hsp h1 h2 h3 c =>
     tskv_dup_single_fails cfg data L1 L2 L3 li lj k hsp h1 h2 h3 c⟩

/-- C2 witness: the round trip on a one-single one-multi value, and the
duplicate-key failure on `a TAB b NEWLINE a TAB c`. -/
theorem c2_tskv_witness :
    (∃ s, Contents.write_string
        ⟨[("b".toList, "c".toList)], [("a".toList, ["1".toList])]⟩ = .ok s ∧
      Config.read_string ⟨["a".toList]⟩ s =
        .ok ⟨[("b".toList, "c".toList)], [("a".toList, ["1".toList])]⟩) ∧
    Config.read_string ⟨[]⟩ "a\tb\na\tc".toList ≠ .ok ⟨[], []⟩ := by
  constructor
  · exact c2_tskv_round_trip_and_dup_fail.1
      ⟨[("b".toList, "c".toList)], [("a".toList, ["1".toList])]⟩
      (by decide) (by decide) (by decide) (by decide) (by decide) (by decide)
  · exact c2_tskv_round_trip_and_dup_fail.2 ⟨[]⟩ "a\tb\na\tc".toList
      [] [] [] "a\tb".toList "a\tc".toList "a".toList
      (by decide) (by decide) (by decide) (by decide) ⟨[], []⟩

/-- C2 counterexample: the claim as stated quantifies over every `Contents`
with disjoint key sets and tab-free keys.  The value mapping the
multi-value key `a` to an empty value list satisfies those conditions, yet
it serializes to a bare newline and reads back without the key, so
`read(write(C))` is not `C`. -/
theorem c2_claim_counterexample :
    (∀ kv ∈ (Contents.mk [] [("a".toList, [])]).single_value,
      kv.1 ∉ (Contents.mk [] [("a".toList, [])]).multi_value.map Prod.fst) ∧
    (∀ kv ∈ (Contents.mk [] [("a".toList, [])]).single_value, '\t' ∉ kv.1) ∧
    (∀ kv ∈ (Contents.mk [] [("a".toList, [])]).multi_value, '\t' ∉ kv.1) ∧
    Contents.write_string ⟨[], [("a".toList, [])]⟩ = .ok ['\n'] ∧
    Config.read_string ⟨["a".toList]⟩ ['\n'] = .ok ⟨[], []⟩ ∧
    (Contents.mk [] []) ≠ ⟨[], [("a".toList, [])]⟩ :=
  ⟨by decide, by decide, by decide, rfl, rfl, by decide⟩

/-! ## C1 helper lemmas -/

theorem generate_path_mem (encode : List Nat → List Nat → Option (List Nat))
    (A B : List TarEntry) :
    ∀ d ∈ generate_delta_list encode A B, d.path ∈ pathsOf A ∨ d.path ∈ pathsOf B := by
  induction A, B using generate_delta_list.induct encode with
  | case1 se ss ee es heq res henc ih =>
    intro d hd
    rw [generate_delta_list, if_pos heq, henc] at hd
    rcases List.mem_cons.mp hd with hd | hd
    · left
      rw [hd]
      exact List.mem_cons_self _ _
    · rcases ih d hd with h | h
      · exact Or.inl (List.mem_cons_of_mem _ h)
      · exact Or.inr (List.mem_cons_of_mem _ h)
  | case2 se ss ee es heq henc ih =>
    intro d hd
    rw [generate_delta_list, if_pos heq, henc] at hd
    rcases ih d hd with h | h
    · exact Or.inl (List.mem_cons_of_mem _ h)
    · exact Or.inr (List.mem_cons_of_mem _ h)
  | case3 se ss ee es heq hlt ih =>
    intro d hd
    rw [generate_delta_list, if_neg heq, if_pos hlt] at hd
    rcases List.mem_cons.mp hd with hd | hd
    · left
      rw [hd]
      exact List.mem_cons_self _ _
    · rcases ih d hd with h | h
      · exact Or.inl (List.mem_cons_of_mem _ h)
      · exact Or.inr h
  | case4 se ss ee es heq hlt ih =>
    intro d hd
    rw [generate_delta_list, if_neg heq, if_neg hlt] at hd
    rcases List.mem_cons.mp hd with hd | hd
    · right
      rw [hd]
      exact List.mem_cons_self _ _
    · rcases ih d hd with h | h
      · exact Or.inl h
      · exact Or.inr (List.mem_cons_of_mem _ h)
  | case5 se ss ih =>
    intro d hd
    rw [generate_delta_list] at hd
    rcases List.mem_cons.mp hd with hd | hd
    · left
      rw [hd]
      exact List.mem_cons_self _ _
    · rcases ih d hd with h | h
      · exact Or.inl (List.mem_cons_of_mem _ h)
      · exact Or.inr h
  | case6 ee es ih =>
    intro d hd
    rw [generate_delta_list] at hd
    rcases List.mem_cons.mp hd with hd | hd
    · right
      rw [hd]
      exact List.mem_cons_self _ _
    · rcases ih d hd with h | h
      · exact Or.inl h
      · exact Or.inr (List.mem_cons_of_mem _ h)
  | case7 =>
    intro d hd
    rw [generate_delta_list] at hd
    cases hd

theorem restore_generate
    (encode decode : List Nat → List Nat → Option (List Nat))
    (hcontract : ∀ t s p, encode t s = some p → decode p s = some t)
    (hnone : ∀ t s, encode t s = none → t = s) :
    ∀ (n : Nat) (A B : List TarEntry), A.length + B.length ≤ n →
    ArchiveSorted A → ArchiveSorted B →
    ∃ R, restore_from_delta_list decode A (generate_delta_list encode A B) = .ok R ∧
      R.map entryPayload = B.map entryPayload ∧
      ∀ e ∈ R, (e.mode = 0 ∧ e.mtime = 0) ∨ e ∈ A := by
  intro n
  induction n with
  | zero =>
    intro A B hlen _ _
    cases A with
    | nil =>
      cases B with
      | nil => exact ⟨[], by rw [generate_delta_list, restore_from_delta_list], rfl, by simp⟩
      | cons e es => simp at hlen
    | cons s ss => simp at hlen
  | succ n ih =>
    intro A B hlen hA hB
    cases A with
    | nil =>
      cases B with
      | nil => exact ⟨[], by rw [generate_delta_list, restore_from_delta_list], rfl, by simp⟩
      | cons e es =>
        obtain ⟨R, hR, hproj, hmem⟩ := ih [] es
          (by simp at hlen ⊢; omega) hA (List.Pairwise.of_cons hB)
        refine ⟨add_tar_entry e.path e.data :: R, ?_, ?_, ?_⟩
        · rw [generate_delta_list]
          simp only [restore_from_delta_list, hR]
          rfl
        · simp only [List.map_cons, hproj]
          rfl
        · intro x hx
          rcases List.mem_cons.mp hx with hx | hx
          · exact Or.inl (by rw [hx]; exact ⟨rfl, rfl⟩)
          · rcases hmem x hx with h | h
            · exact Or.inl h
            · cases h
    | cons s ss =>
      cases B with
      | nil =>
        obtain ⟨R, hR, hproj, hmem⟩ := ih ss []
          (by simp at hlen ⊢; omega) (List.Pairwise.of_cons hA) hB
        refine ⟨R, ?_, hproj, fun x hx => (hmem x hx).imp id (List.mem_cons_of_mem s)⟩
        rw [generate_delta_list]
        simp only [restore_from_delta_list, if_pos, hR]
      | cons e es =>
        by_cases heq : s.path = e.path
        · cases henc : encode e.data s.data with
          | some p =>
            obtain ⟨R, hR, hproj, hmem⟩ := ih ss es
              (by simp at hlen ⊢; omega)
              (List.Pairwise.of_cons hA) (List.Pairwise.of_cons hB)
            refine ⟨add_tar_entry s.path e.data :: R, ?_, ?_, ?_⟩
            · rw [generate_delta_list, if_pos heq, henc]
              simp only [restore_from_delta_list, if_pos,
                hcontract e.data s.data p henc, hR]
              rfl
            · simp only [List.map_cons, hproj]
              rw [heq]
              rfl
            · intro x hx
              rcases List.mem_cons.mp hx with hx | hx
              · exact Or.inl (by rw [hx]; exact ⟨rfl, rfl⟩)
              · exact (hmem x hx).imp id (List.mem_cons_of_mem s)
          | none =>
            have hdata : e.data = s.data := hnone _ _ henc
            obtain ⟨R, hR, hproj, hmem⟩ := ih ss es
              (by simp at hlen ⊢; omega)
              (List.Pairwise.of_cons hA) (List.Pairwise.of_cons hB)
            have hgen : generate_delta_list encode (s :: ss) (e :: es) =
                generate_delta_list encode ss es := by
              rw [generate_delta_list, if_pos heq, henc]
            have hstep : restore_from_delta_list decode (s :: ss)
                (generate_delta_list encode ss es) =
                (restore_from_delta_list decode ss
                  (generate_delta_list encode ss es)).map (s :: ·) := by
              cases hg : generate_delta_list encode ss es with
              | nil => rw [restore_from_delta_list]
              | cons d ds =>
                have hdp : lexLt s.path d.path = true := by
                  rcases generate_path_mem encode ss es d
                      (hg ▸ List.mem_cons_self d ds) with h | h
                  · rcases List.mem_map.mp h with ⟨x, hx, hxp⟩
                    exact hxp ▸ (List.pairwise_cons.mp hA).1 x hx
                  · rcases List.mem_map.mp h with ⟨x, hx, hxp⟩
                    exact hxp ▸ (heq ▸ (List.pairwise_cons.mp hB).1 x hx)
                rw [restore_from_delta_list, if_neg (lexLt_ne_nat hdp), if_pos hdp]
            refine ⟨s :: R, ?_, ?_, ?_⟩
            · rw [hgen, hstep, hR]
              rfl
            · simp only [List.map_cons, hproj]
              rw [show entryPayload s = (e.path, e.data) from by
                rw [entryPayload, heq, hdata]]
              rfl
            · intro x hx
              rcases List.mem_cons.mp hx with hx | hx
              · exact Or.inr (hx ▸ List.mem_cons_self s ss)
              · exact (hmem x hx).imp id (List.mem_cons_of_mem s)
        · by_cases hlt : lexLt s.path e.path = true
          · obtain ⟨R, hR, hproj, hmem⟩ := ih ss (e :: es)
              (by simp at hlen ⊢; omega) (List.Pairwise.of_cons hA) hB
            refine ⟨R, ?_, hproj, fun x hx => (hmem x hx).imp id (List.mem_cons_of_mem s)⟩
            rw [generate_delta_list, if_neg heq, if_pos hlt]
            simp only [restore_from_delta_list, if_pos, hR]
          · obtain ⟨R, hR, hproj, hmem⟩ := ih (s :: ss) es
              (by simp at hlen ⊢; omega) hA (List.Pairwise.of_cons hB)
            refine ⟨add_tar_entry e.path e.data :: R, ?_, ?_, ?_⟩
            · rw [generate_delta_list, if_neg heq, if_neg hlt]
              rw [restore_from_delta_list, if_neg heq, if_neg hlt]
              simp only [hR]
              rfl
            · simp only [List.map_cons, hproj]
              rfl
            · intro x hx
              rcases List.mem_cons.mp hx with hx | hx
              · exact Or.inl (by rw [hx]; exact ⟨rfl, rfl⟩)
              · exact hmem x hx

/-- C1 (amended): for sorted archives `A`, `B`, applying the delta list
produced by `generate_delta_list A B` to `A` via `restore_from_delta_list`
succeeds and yields an archive equal to `B` at the entry-payload level
(paths and bytes, hence sizes), with every output entry either carrying a
fresh zeroed header or being an entry of `A` passed through with its
permission and timestamp bits intact.  Beyond the claim's
`decode (encode t s) s = t` contract, this needs the amendment that the
oracle declines (`encode t s = none`) only on equal payloads: an oracle
that declines on differing payloads makes generation emit nothing and
restore fall back to the source payload (see `c1_claim_counterexample`). -/
theorem c1_delta_round_trip (encode decode : List Nat → List Nat → Option (List Nat))
    (hcontract : ∀ t s p, encode t s = some p → decode p s = some t)
    (hnone : ∀ t s, encode t s = none → t = s)
    (A B : List TarEntry) (hA : ArchiveSorted A) (hB : ArchiveSorted B) :
    ∃ R, restore_from_delta_list decode A (generate_delta_list encode A B) = .ok R ∧
      R.map entryPayload = B.map entryPayload ∧
      ∀ e ∈ R, (e.mode = 0 ∧ e.mtime = 0) ∨ e ∈ A :=
  restore_generate encode decode hcontract hnone (A.length + B.length) A B le_rfl hA hB

/-- C1 witness: the round trip through an oracle whose patch is the target
itself, on one-entry archives with differing payloads. -/
theorem c1_delta_round_trip_witness :
    ∃ R, restore_from_delta_list decodeId [⟨[97], 5, 6, [0]⟩]
        (generate_delta_list encodeId [⟨[97], 5, 6, [0]⟩] [⟨[97], 5, 6, [1]⟩]) = .ok R ∧
      R.map entryPayload = [(⟨[97], 5, 6, [1]⟩ : TarEntry)].map entryPayload ∧
      ∀ e ∈ R, (e.mode = 0 ∧ e.mtime = 0) ∨ e ∈ [(⟨[97], 5, 6, [0]⟩ : TarEntry)] :=
  c1_delta_round_trip encodeId decodeId
    (fun t s p h => by cases h; rfl) (fun t s h => nomatch h)
    [⟨[97], 5, 6, [0]⟩] [⟨[97], 5, 6, [1]⟩]
    (by simp [ArchiveSorted]) (by simp [ArchiveSorted])

/-- C1 counterexample: the claim as stated assumes only the
`decode (encode t s) s = t` contract.  The oracle that never returns a
patch satisfies that contract vacuously, yet on sorted one-entry archives
with payloads `[0]` and `[1]` generation emits no record and restore
returns the source archive unchanged, whose payload differs from `B`. -/
theorem c1_claim_counterexample :
    (∀ t s p, encodeNone t s = some p → decodeNone p s = some t) ∧
    ArchiveSorted [⟨[97], 5, 6, [0]⟩] ∧ ArchiveSorted [⟨[97], 5, 6, [1]⟩] ∧
    generate_delta_list encodeNone [⟨[97], 5, 6, [0]⟩] [⟨[97], 5, 6, [1]⟩] = [] ∧
    restore_from_delta_list decodeNone [⟨[97], 5, 6, [0]⟩]
      (generate_delta_list encodeNone [⟨[97], 5, 6, [0]⟩] [⟨[97], 5, 6, [1]⟩]) =
      .ok [⟨[97], 5, 6, [0]⟩] ∧
    [(⟨[97], 5, 6, [0]⟩ : TarEntry)].map entryPayload ≠
      [(⟨[97], 5, 6, [1]⟩ : TarEntry)].map entryPayload := by
  refine ⟨?_, ?_, ?_, ?_, ?_, ?_⟩
  · intro t s p h
    exact absurd h (by simp [encodeNone])
  · simp [ArchiveSorted]
  · simp [ArchiveSorted]
  · simp [generate_delta_list, encodeNone]
  · simp [generate_delta_list, encodeNone, restore_from_delta_list, Except.map]
  · decide

/-! ### C9: a truncated delta list decodes as a complete shorter list -/

/-- The eight bytes of `u64::to_be_bytes` decode back to the number (here
only needed below the panic guard). -/
theorem beToNat_u64be (n : Nat) (h : n ≤ 1000000000) : beToNat (u64be n) = n := by
  simp [beToNat, u64be]
  omega

/-- `read_exact` on a stream that starts with exactly the requested bytes. -/
theorem read_exact_append (a b : List Nat) :
    read_exact a.length (a ++ b) = some (a, b) := by
  simp only [read_exact, List.length_append, Nat.le_add_right, if_true,
    List.take_left, List.drop_left]

/-- `read_bytes` on a stream produced by `add_bytes`. -/
theorem read_bytes_append (b rest : List Nat) (h : b.length ≤ 1000000000) :
    JBackupFileDeltaListReader.read_bytes
      (JBackupFileDeltaListWriter.add_bytes b ++ rest) = .ok b rest := by
  have h8 : read_exact 8 (u64be b.length ++ (b ++ rest)) =
      some (u64be b.length, b ++ rest) := by
    have h0 := read_exact_append (u64be b.length) (b ++ rest)
    simpa [u64be] using h0
  have hlen := beToNat_u64be b.length h
  simp only [JBackupFileDeltaListWriter.add_bytes, List.append_assoc,
    JBackupFileDeltaListReader.read_bytes, h8, hlen]
  rw [if_neg (by omega)]
  simp only [read_exact_append]

/-- `read_string` on a stream produced by `add_bytes` with valid UTF-8
content. -/
theorem read_string_append (b rest : List Nat) (h : b.length ≤ 1000000000)
    (hu : validUtf8 b = true) :
    JBackupFileDeltaListReader.read_string
      (JBackupFileDeltaListWriter.add_bytes b ++ rest) = .ok b rest := by
  simp only [JBackupFileDeltaListReader.read_string, read_bytes_append b rest h, hu, if_true]

/-- `next` on a stream that starts with the serialization of a well-formed
record parses exactly that record. -/
theorem reader_next_record (d : JBackupDelta) (rest : List Nat)
    (hd : deltaWellFormed d) :
    JBackupFileDeltaListReader.next (JBackupFileDeltaListWriter.add d ++ rest) =
      .record d rest := by
  cases d with
  | mk path content =>
    simp only [deltaWellFormed] at hd
    obtain ⟨hu, hlen, hc⟩ := hd
    cases content with
    | Deleted =>
      simp only [JBackupFileDeltaListWriter.add, List.append_assoc, List.singleton_append]
      simp only [JBackupFileDeltaListReader.next,
        read_string_append path (1 :: rest) hlen hu,
        JBackupFileDeltaListReader.read_u8]
      rfl
    | Modified x =>
      simp only [JBackupFileDeltaListWriter.add, List.append_assoc, List.cons_append]
      simp only [JBackupFileDeltaListReader.next,
        read_string_append path
          (2 :: (JBackupFileDeltaListWriter.add_bytes x ++ rest)) hlen hu,
        JBackupFileDeltaListReader.read_u8]
      simp only [read_bytes_append x rest hc]
      rfl
    | Added c =>
      simp only [JBackupFileDeltaListWriter.add, List.append_assoc, List.cons_append]
      simp only [JBackupFileDeltaListReader.next,
        read_string_append path
          (3 :: (JBackupFileDeltaListWriter.add_bytes c ++ rest)) hlen hu,
        JBackupFileDeltaListReader.read_u8]
      simp only [read_bytes_append c rest hc]
      rfl

/-- `next` on a tail that fails the path read reports a clean end of the
list. -/
theorem reader_next_truncated (t : List Nat) (ht : truncatedPathTail t) :
    JBackupFileDeltaListReader.next t = .endOfList := by
  by_cases h8 : t.length < 8
  · have hnone : read_exact 8 t = none := by
      simp only [read_exact]
      rw [if_neg (by omega)]
    simp [JBackupFileDeltaListReader.next, JBackupFileDeltaListReader.read_string,
      JBackupFileDeltaListReader.read_bytes, hnone]
  · push_neg at h8
    have hre : read_exact 8 t = some (t.take 8, t.drop 8) := by
      simp only [read_exact]
      rw [if_pos (by omega)]
    rcases ht with h | ⟨hle, hcase⟩
    · omega
    · rcases hcase with hshort | ⟨hlen2, hutf⟩
      · have hnone : read_exact (beToNat (t.take 8)) (t.drop 8) = none := by
          simp only [read_exact, List.length_drop]
          rw [if_neg (by omega)]
        simp only [JBackupFileDeltaListReader.next, JBackupFileDeltaListReader.read_string,
          JBackupFileDeltaListReader.read_bytes, hre, hnone]
        rw [if_neg (by omega)]
      · have hsome : read_exact (beToNat (t.take 8)) (t.drop 8) =
            some ((t.drop 8).take (beToNat (t.take 8)),
              (t.drop 8).drop (beToNat (t.take 8))) := by
          simp only [read_exact, List.length_drop]
          rw [if_pos (by omega)]
        simp only [JBackupFileDeltaListReader.next, JBackupFileDeltaListReader.read_string,
          JBackupFileDeltaListReader.read_bytes, hre, hsome]
        rw [if_neg (by omega)]
        simp only [hutf, Bool.false_eq_true, if_false]

/-- The record loop with sufficient fuel parses every serialized record and
ends cleanly at a truncated tail. -/
theorem read_records_append_truncated (ds : List JBackupDelta) (t : List Nat) (n : Nat)
    (hn : ds.length < n) (hds : ∀ d ∈ ds, deltaWellFormed d)
    (ht : truncatedPathTail t) :
    read_delta_records_fuel n ((ds.map JBackupFileDeltaListWriter.add).flatten ++ t) =
      .ok ds := by
  induction ds generalizing n with
  | nil =>
    cases n with
    | zero => omega
    | succ m =>
      simp only [List.map_nil, List.flatten_nil, List.nil_append,
        read_delta_records_fuel, reader_next_truncated t ht]
  | cons d ds ih =>
    cases n with
    | zero => omega
    | succ m =>
      have hd : deltaWellFormed d := hds d (List.mem_cons_self d ds)
      have hds2 : ∀ e ∈ ds, deltaWellFormed e := fun e he => hds e (List.mem_cons_of_mem d he)
      have hm : ds.length < m := by
        simp only [List.length_cons] at hn
        omega
      simp only [List.map_cons, List.flatten_cons, List.append_assoc,
        read_delta_records_fuel,
        reader_next_record d ((ds.map JBackupFileDeltaListWriter.add).flatten ++ t) hd,
        ih m hm hds2]

/-- Each serialized record occupies at least one byte. -/
theorem add_length_pos (d : JBackupDelta) :
    1 ≤ (JBackupFileDeltaListWriter.add d).length := by
  cases d with
  | mk p c =>
    cases c <;>
      simp [JBackupFileDeltaListWriter.add, JBackupFileDeltaListWriter.add_bytes, u64be]

/-- The serialized records are at least as many bytes as there are
records. -/
theorem flatten_add_length (ds : List JBackupDelta) :
    ds.length ≤ (ds.map JBackupFileDeltaListWriter.add).flatten.length := by
  induction ds with
  | nil => simp
  | cons d ds ih =>
    simp only [List.map_cons, List.flatten_cons, List.length_append, List.length_cons]
    have := add_length_pos d
    omega

/-- The header check on a stream that starts with the magic bytes. -/
theorem new_append (x : List Nat) :
    JBackupFileDeltaListReader.new ([68, 76, 0, 0, 0, 1] ++ x) = .ok x := by
  have h3 : ¬ ([68, 76, 0, 0, 0, 1] ++ x).length < 6 := by simp
  simp only [JBackupFileDeltaListReader.new, if_neg h3]
  rfl

/-- C9: for every delta-list stream consisting of a valid header, the
serialization of well-formed records, and a tail on which the path read
fails (too short for the length field, too short for the announced path
bytes, or path bytes that are not valid UTF-8), the reader treats the
failed path read as a clean end of the sequence: the whole stream decodes
successfully as exactly the complete records, with no error reported for
the truncation. -/
theorem c9_truncated_delta_list_reads_clean (ds : List JBackupDelta) (t : List Nat)
    (hds : ∀ d ∈ ds, deltaWellFormed d) (ht : truncatedPathTail t) :
    read_delta_list (delta_list_bytes ds ++ t) = .ok ds := by
  have hflat := flatten_add_length ds
  simp only [read_delta_list, delta_list_bytes, List.append_assoc, new_append]
  rw [read_delta_records]
  exact read_records_append_truncated ds t _
    (by simp only [List.length_append]; omega) hds ht

/-- C9 witness: one well-formed Deleted record followed by a two-byte tail,
which is too short to hold the next length field. -/
theorem c9_truncated_delta_list_reads_clean_witness :
    (∀ d ∈ [(⟨[97], .Deleted⟩ : JBackupDelta)], deltaWellFormed d) ∧
    truncatedPathTail [0, 0] ∧
    read_delta_list (delta_list_bytes [(⟨[97], .Deleted⟩ : JBackupDelta)] ++ [0, 0]) =
      .ok [⟨[97], .Deleted⟩] := by
  refine ⟨?_, ?_, ?_⟩
  · intro d hd
    simp only [List.mem_singleton] at hd
    subst hd
    exact ⟨by decide, by decide, trivial⟩
  · exact Or.inl (by decide)
  · exact c9_truncated_delta_list_reads_clean [⟨[97], .Deleted⟩] [0, 0]
      (by intro d hd
          simp only [List.mem_singleton] at hd
          subst hd
          exact ⟨by decide, by decide, trivial⟩)
      (Or.inl (by decide))
